import Mathlib

/-!
# lynkdb/localfs: a local-disk storage connector

A shallow embedding of `localfs.go` and `file-object.go`.

The Go standard library calls the connector makes (`filepath.Clean`, `filepath.Dir`,
`os.Stat`, `os.Open`, `os.OpenFile`, `os.MkdirAll`, the `*os.File` methods, `io.Copy`)
are modelled over an explicit filesystem state:

* a filesystem is a tree of directories and regular files (no symbolic links, no
  permission bits, no I/O failures);
* the kernel resolves a path lexically, from `/` when the path is rooted and from the
  working directory otherwise (`OS.resolve`);
* every native call is appended to a trace (`OS.calls`), so that "performs no filesystem
  call" is a statement about the state;
* an open file is a value carrying the resolved location, the open flags and the cursor;
  operations that may move the cursor return the new value.

Strings are Lean strings; `filepath.Clean` only inspects the ASCII bytes `/` and `.`, so
working on characters coincides with Go's byte-wise processing of UTF-8 text.
-/

set_option linter.unusedVariables false

namespace localfs

/-! ## Errors -/

/-- File contents are sequences of bytes. -/
abbrev Byte := Nat

/-- The `syscall.Errno` values the model can produce. -/
inductive Errno where
  | ENOENT
  | ENOTDIR
  | EISDIR
  | EEXIST
  | EBADF
  | EINVAL
  deriving DecidableEq, Repr

/-- Go `error` values: `errors.New`/`fmt.Errorf` messages, `*os.PathError`, `io.EOF`, and
the sentinel errors of package `os` used by `*os.File`. -/
inductive Error where
  | New (msg : String)
  | PathError (op : String) (path : String) (errno : Errno)
  | EOF
  | ErrClosed
  | ErrWriteAtInAppendMode
  deriving DecidableEq, Repr

-- Results of fallible calls can be compared.
deriving instance DecidableEq for Except

/-! ## `path/filepath` -/

/-- The inner loop of the `..` case of `filepath.Clean`, run after the first `out.w--`:
the argument is the buffer `buf[0..w]` reversed, its head being `buf[w]`;
`for out.w > dotdot && !os.IsPathSeparator(out.index(out.w)) { out.w-- }`.
The result is `buf[0..w)` reversed. -/
def backtrackLoop (dotdot : Nat) : List Char → List Char
  | [] => []
  | c :: r => if r.length > dotdot ∧ c ≠ '/' then backtrackLoop dotdot r else r

/-- The main loop `for r < n` of `filepath.Clean`. The second list is the unread input
`path[r:]`, `out` is the written buffer `buf[0..w)`, and `dotdot` is the index where `..`
must stop. The first argument bounds the number of iterations; every iteration consumes at
least one byte, so the input length suffices. -/
def cleanLoop (rooted : Bool) : Nat → List Char → List Char → Nat → List Char
  | 0, _, out, _ => out
  | _ + 1, [], out, _ => out
  | fuel + 1, c :: t, out, dotdot =>
    if c = '/' then
      -- empty path element
      cleanLoop rooted fuel t out dotdot
    else if c = '.' ∧ (t = [] ∨ t.head? = some '/') then
      -- . element
      cleanLoop rooted fuel t out dotdot
    else if c = '.' ∧ t.head? = some '.' ∧ (t.tail = [] ∨ t.tail.head? = some '/') then
      -- .. element: remove to last separator
      if out.length > dotdot then
        cleanLoop rooted fuel t.tail (backtrackLoop dotdot out.reverse).reverse dotdot
      else if !rooted then
        let out1 := if out.length > 0 then out ++ ['/'] else out
        let out2 := out1 ++ ['.', '.']
        cleanLoop rooted fuel t.tail out2 out2.length
      else
        cleanLoop rooted fuel t.tail out dotdot
    else
      -- real path element: add slash if needed, copy element
      let out1 :=
        if (rooted && out.length != 1) || (!rooted && out.length != 0) then out ++ ['/'] else out
      cleanLoop rooted fuel ((c :: t).dropWhile (· ≠ '/'))
        (out1 ++ (c :: t).takeWhile (· ≠ '/')) dotdot

/-- The buffer `filepath.Clean` computes for a non-empty path. -/
def cleanChars (p : List Char) : List Char :=
  if p.head? = some '/' then cleanLoop true p.length p.tail ['/'] 1
  else cleanLoop false p.length p [] 0

/-- Go `filepath.Clean` (Unix). -/
def Clean (path : String) : String :=
  if path = "" then "."
  else
    let out := cleanChars path.data
    -- Turn empty string into "."
    if out.length = 0 then "." else String.mk out

/-- The bytes `path[:i+1]`, where `i` is the index of the last separator (`-1` if none). -/
def dirPart (p : List Char) : List Char :=
  (p.reverse.dropWhile (· ≠ '/')).reverse

/-- Go `filepath.Dir` (Unix). -/
def Dir (path : String) : String :=
  Clean (String.mk (dirPart path.data))

/-- Go `filepath.Base` (Unix). -/
def Base (path : String) : String :=
  if path = "" then "."
  else
    let stripped := (path.data.reverse.dropWhile (· = '/')).reverse
    let last := (stripped.reverse.takeWhile (· ≠ '/')).reverse
    if last = [] then "/" else String.mk last

/-! ## The filesystem -/

/-- A path element. -/
abbrev Name := String

/-- A filesystem object: a regular file with its content, or a directory with its
entries in directory order. -/
inductive Node where
  | file (data : List Byte)
  | dir (entries : List (Name × Node))

/-- The entry called `c`, if any. -/
def findEntry (c : Name) : List (Name × Node) → Option Node
  | [] => none
  | e :: es => if e.1 = c then some e.2 else findEntry c es

/-- Replace the entry called `c`, or add it at the end of the directory. -/
def putEntry (c : Name) (n : Node) : List (Name × Node) → List (Name × Node)
  | [] => [(c, n)]
  | e :: es => if e.1 = c then (c, n) :: es else e :: putEntry c n es

/-- Walk down from a node along path elements. -/
def Node.walk : Node → List Name → Except Errno Node
  | n, [] => .ok n
  | .file _, _ :: _ => .error .ENOTDIR
  | .dir es, c :: cs =>
    match findEntry c es with
    | some child => child.walk cs
    | none => .error .ENOENT

/-- The content of the regular file at a location, if there is one. -/
def Node.fileAt (root : Node) (t : List Name) : Option (List Byte) :=
  match root.walk t with
  | .ok (.file d) => some d
  | _ => none

/-- The entries of the directory at a location, if there is one. -/
def Node.dirAt (root : Node) (t : List Name) : Option (List (Name × Node)) :=
  match root.walk t with
  | .ok (.dir es) => some es
  | _ => none

/-- Whether a location names an existing object. -/
def Node.existsAt (root : Node) (t : List Name) : Bool :=
  match root.walk t with
  | .ok _ => true
  | .error _ => false

/-- Store a regular file with content `d` at a location: the location must be an existing
regular file, or be absent from an existing directory. -/
def Node.setFile : Node → List Name → List Byte → Except Errno Node
  | .file _, [], d => .ok (.file d)
  | .dir _, [], _ => .error .EISDIR
  | .file _, _ :: _, _ => .error .ENOTDIR
  | .dir es, [c], d =>
    match findEntry c es with
    | some (.dir _) => .error .EISDIR
    | _ => .ok (.dir (putEntry c (.file d) es))
  | .dir es, c :: c2 :: cs, d =>
    match findEntry c es with
    | some child =>
      match child.setFile (c2 :: cs) d with
      | .ok child1 => .ok (.dir (putEntry c child1 es))
      | .error e => .error e
    | none => .error .ENOENT

/-- Create the directory at a location together with every missing parent. A regular file
on the way is an error; it is met before anything is created. -/
def Node.mkdirAll : Node → List Name → Except Errno Node
  | .file _, _ => .error .ENOTDIR
  | .dir es, [] => .ok (.dir es)
  | .dir es, c :: cs =>
    match findEntry c es with
    | some child =>
      match child.mkdirAll cs with
      | .ok child1 => .ok (.dir (putEntry c child1 es))
      | .error e => .error e
    | none =>
      match (Node.dir []).mkdirAll cs with
      | .ok child1 => .ok (.dir (putEntry c child1 es))
      | .error e => .error e

/-- The size reported for a directory; system-dependent, one block here. -/
def dirSize : Nat := 4096

/-- Go `os.FileInfo`, without the mode bits and the modification time. -/
structure FileInfo where
  name : String
  size : Nat
  isDir : Bool
  deriving DecidableEq, Repr

/-- The file status of a node under a given name. -/
def FileInfo.ofNode (name : String) : Node → FileInfo
  | .file d => { name := name, size := d.length, isDir := false }
  | .dir _ => { name := name, size := dirSize, isDir := true }

/-- One native call: the operation and the file name it was issued for. -/
structure Call where
  op : String
  name : String
  deriving DecidableEq, Repr

/-- The state of the machine: the filesystem tree, the working directory of the process,
and the trace of native calls issued so far. -/
structure OS where
  root : Node
  cwd : List Name
  calls : List Call

/-- Record a native call. -/
def OS.log (st : OS) (op name : String) : OS :=
  { st with calls := st.calls ++ [{ op := op, name := name }] }

/-- Split a path at every separator. -/
def splitSlash : List Char → List (List Char)
  | [] => [[]]
  | c :: cs =>
    if c = '/' then [] :: splitSlash cs
    else
      match splitSlash cs with
      | [] => [[c]]
      | h :: t => (c :: h) :: t

/-- Path resolution, one element: empty elements and `.` stay, `..` moves to the parent
(the parent of `/` is `/`), anything else descends. -/
def walkStep (s : List Name) (c : List Char) : List Name :=
  if c = [] ∨ c = ['.'] then s
  else if c = ['.', '.'] then s.dropLast
  else s ++ [String.mk c]

/-- Resolve a path from a starting location. -/
def resolveFrom (s : List Name) (p : List Char) : List Name :=
  (splitSlash p).foldl walkStep s

/-- Whether a path starts with a separator. -/
def isRooted (p : String) : Bool :=
  p.data.head? = some '/'

/-- The location a path names: resolved from `/` when rooted, from the working directory
otherwise. The resolution is lexical, as `filepath.Clean` is: it agrees with the kernel on
paths in which no `..` follows an element that is missing or not a directory, such as the
cleaned paths the connector passes on. -/
def OS.resolve (st : OS) (p : String) : List Name :=
  resolveFrom (if isRooted p then [] else st.cwd) p.data

/-! ## Package `os` -/

/-- Flags of `os.OpenFile` (Linux values). -/
def O_RDONLY : Nat := 0

/-- Open write-only. -/
def O_WRONLY : Nat := 1

/-- Open read-write. -/
def O_RDWR : Nat := 2

/-- Create the file if it does not exist. -/
def O_CREATE : Nat := 0x40

/-- With `O_CREATE`: the file must not exist. -/
def O_EXCL : Nat := 0x80

/-- Truncate a regular file when opened. -/
def O_TRUNC : Nat := 0x200

/-- Append to the file when writing. -/
def O_APPEND : Nat := 0x400

/-- Whether a flag bit is set. -/
def hasFlag (flag bit : Nat) : Bool :=
  (flag &&& bit) != 0

/-- The access mode bits of an open flag. -/
def accMode (flag : Nat) : Nat :=
  flag &&& 3

/-- The open flags this model describes: one of the access modes `O_RDONLY`, `O_WRONLY`,
`O_RDWR`, together with any of `O_CREATE`, `O_EXCL`, `O_TRUNC` and `O_APPEND`. Every other
flag of `open(2)` (`O_DIRECT`, `O_DIRECTORY`, `O_PATH`, ...) changes what the kernel does
in ways the definitions below do not describe; statements about opened files are made for
these flags only. -/
def plainFlags (flag : Nat) : Bool :=
  accMode flag != 3 &&
    (flag &&& (3 ||| O_CREATE ||| O_EXCL ||| O_TRUNC ||| O_APPEND)) == flag

/-- Go `*os.File`: the name it was opened with, the object it refers to, the open flags,
the cursor (the read position for a directory) and whether it has been closed. -/
structure File where
  name : String
  target : List Name
  flag : Nat
  offset : Nat
  closed : Bool
  deriving DecidableEq, Repr

/-- Opened with read access. -/
def File.canRead (f : File) : Bool :=
  accMode f.flag = O_RDONLY || accMode f.flag = O_RDWR

/-- Opened with write access. -/
def File.canWrite (f : File) : Bool :=
  accMode f.flag = O_WRONLY || accMode f.flag = O_RDWR

/-- Opened with `O_APPEND`. -/
def File.appendMode (f : File) : Bool :=
  hasFlag f.flag O_APPEND

/-- Go `os.Stat`. -/
def os.Stat (name : String) (st : OS) : Except Error FileInfo × OS :=
  let st1 := st.log "stat" name
  match st.root.walk (st.resolve name) with
  | .ok n => (.ok (FileInfo.ofNode (Base name) n), st1)
  | .error e => (.error (.PathError "stat" name e), st1)

/-- Go `os.OpenFile`, for the flags of `plainFlags`: only the access mode, `O_CREATE`,
`O_EXCL` and `O_TRUNC` are looked at here, and `O_APPEND` when writing. The permission
bits only matter for a created file and are not part of the model. -/
def os.OpenFile (name : String) (flag : Nat) (perm : Nat) (st : OS) : Except Error File × OS :=
  let st1 := st.log "open" name
  let t := st.resolve name
  let fp : File := { name := name, target := t, flag := flag, offset := 0, closed := false }
  match st.root.walk t with
  | .ok (.dir _) =>
    if hasFlag flag O_CREATE && hasFlag flag O_EXCL then
      (.error (.PathError "open" name .EEXIST), st1)
    else if hasFlag flag O_CREATE || accMode flag != O_RDONLY || hasFlag flag O_TRUNC then
      (.error (.PathError "open" name .EISDIR), st1)
    else (.ok fp, st1)
  | .ok (.file _) =>
    if hasFlag flag O_CREATE && hasFlag flag O_EXCL then
      (.error (.PathError "open" name .EEXIST), st1)
    else if hasFlag flag O_TRUNC then
      match st.root.setFile t [] with
      | .ok root1 => (.ok fp, { st1 with root := root1 })
      | .error e => (.error (.PathError "open" name e), st1)
    else (.ok fp, st1)
  | .error e =>
    if hasFlag flag O_CREATE then
      match st.root.setFile t [] with
      | .ok root1 => (.ok fp, { st1 with root := root1 })
      | .error e1 => (.error (.PathError "open" name e1), st1)
    else (.error (.PathError "open" name e), st1)

/-- Go `os.Open`: `OpenFile(name, O_RDONLY, 0)`. -/
def os.Open (name : String) (st : OS) : Except Error File × OS :=
  os.OpenFile name O_RDONLY 0 st

/-- Go `os.MkdirAll`. The error carries the argument as its path; Go reports the regular
file it met on the way, which is the argument when the argument itself is that file. -/
def os.MkdirAll (name : String) (perm : Nat) (st : OS) : Option Error × OS :=
  let st1 := st.log "mkdirall" name
  match st.root.mkdirAll (st.resolve name) with
  | .ok root1 => (none, { st1 with root := root1 })
  | .error e => (some (.PathError "mkdir" name e), st1)

/-- Go `(*os.File).Stat`. -/
def File.Stat (f : File) (st : OS) : Except Error FileInfo × OS :=
  let st1 := st.log "fstat" f.name
  if f.closed then (.error .ErrClosed, st1)
  else
    match st.root.walk f.target with
    | .ok n => (.ok (FileInfo.ofNode (Base f.name) n), st1)
    | .error _ => (.error (.PathError "stat" f.name .EBADF), st1)

/-- Go `(*os.File).Seek`: `whence` 0 is the start, 1 the cursor, 2 the end; offsets are
not bounded by `int64` and the Linux values `SEEK_DATA` and `SEEK_HOLE` are not part of
the model. -/
def File.Seek (f : File) (offset : Int) (whence : Int) (st : OS) : Except Error Int × File × OS :=
  let st1 := st.log "seek" f.name
  if f.closed then (.error .ErrClosed, f, st1)
  else
    match st.root.walk f.target with
    | .ok n =>
      let size : Nat := match n with
        | .file d => d.length
        | .dir _ => 0
      let pos : Int :=
        if whence = 0 then offset
        else if whence = 1 then (f.offset : Int) + offset
        else (size : Int) + offset
      if whence < 0 ∨ 2 < whence ∨ pos < 0 then
        (.error (.PathError "seek" f.name .EINVAL), f, st1)
      else (.ok pos, { f with offset := pos.toNat }, st1)
    | .error _ => (.error (.PathError "seek" f.name .EBADF), f, st1)

/-- Go `(*os.File).Read` into a buffer of `n` bytes: the bytes read, or an error. -/
def File.Read (f : File) (n : Nat) (st : OS) : Except Error (List Byte) × File × OS :=
  let st1 := st.log "read" f.name
  if f.closed then (.error .ErrClosed, f, st1)
  else if !f.canRead then (.error (.PathError "read" f.name .EBADF), f, st1)
  else
    match st.root.walk f.target with
    | .ok (.file d) =>
      let got := (d.drop f.offset).take n
      if got = [] ∧ 0 < n then (.error .EOF, f, st1)
      else (.ok got, { f with offset := f.offset + got.length }, st1)
    | .ok (.dir _) => (.error (.PathError "read" f.name .EISDIR), f, st1)
    | .error _ => (.error (.PathError "read" f.name .EBADF), f, st1)

/-- The content of a file after writing `b` at offset `off`; a gap is filled with zeros. -/
def writeBytes (content : List Byte) (off : Nat) (b : List Byte) : List Byte :=
  content.take off ++ List.replicate (off - content.length) 0 ++ b ++ content.drop (off + b.length)

/-- Go `(*os.File).WriteAt`: `pwrite` of the whole buffer; the cursor is not involved. The
file is taken to have been opened with flags of `plainFlags`. -/
def File.WriteAt (f : File) (b : List Byte) (off : Int) (st : OS) : Except Error Nat × File × OS :=
  if f.closed then (.error .ErrClosed, f, st)
  else if f.appendMode then (.error .ErrWriteAtInAppendMode, f, st)
  else if off < 0 then (.error (.PathError "writeat" f.name .EINVAL), f, st)
  else if b = [] then (.ok 0, f, st)
  else
    let st1 := st.log "pwrite" f.name
    if !f.canWrite then (.error (.PathError "write" f.name .EBADF), f, st1)
    else
      match st.root.walk f.target with
      | .ok (.file d) =>
        match st.root.setFile f.target (writeBytes d off.toNat b) with
        | .ok root1 => (.ok b.length, f, { st1 with root := root1 })
        | .error e => (.error (.PathError "write" f.name e), f, st1)
      | .ok (.dir _) => (.error (.PathError "write" f.name .EBADF), f, st1)
      | .error _ => (.error (.PathError "write" f.name .EBADF), f, st1)

/-- Go `(*os.File).Write`: writes at the cursor (at the end in append mode) and advances
the cursor. -/
def File.Write (f : File) (b : List Byte) (st : OS) : Except Error Nat × File × OS :=
  let st1 := st.log "write" f.name
  if f.closed then (.error .ErrClosed, f, st1)
  else if !f.canWrite then (.error (.PathError "write" f.name .EBADF), f, st1)
  else
    match st.root.walk f.target with
    | .ok (.file d) =>
      let off := if f.appendMode then d.length else f.offset
      if b = [] then (.ok 0, f, st1)
      else
        match st.root.setFile f.target (writeBytes d off b) with
        | .ok root1 =>
          (.ok b.length, { f with offset := off + b.length }, { st1 with root := root1 })
        | .error e => (.error (.PathError "write" f.name e), f, st1)
    | .ok (.dir _) => (.error (.PathError "write" f.name .EBADF), f, st1)
    | .error _ => (.error (.PathError "write" f.name .EBADF), f, st1)

/-- Go `(*os.File).Truncate`: cut the file, or extend it with zeros. -/
def File.Truncate (f : File) (size : Int) (st : OS) : Option Error × OS :=
  let st1 := st.log "ftruncate" f.name
  if f.closed then (some .ErrClosed, st1)
  else if size < 0 ∨ !f.canWrite then (some (.PathError "truncate" f.name .EINVAL), st1)
  else
    match st.root.walk f.target with
    | .ok (.file d) =>
      let d1 := d.take size.toNat ++ List.replicate (size.toNat - d.length) 0
      match st.root.setFile f.target d1 with
      | .ok root1 => (none, { st1 with root := root1 })
      | .error e => (some (.PathError "truncate" f.name e), st1)
    | .ok (.dir _) => (some (.PathError "truncate" f.name .EINVAL), st1)
    | .error _ => (some (.PathError "truncate" f.name .EBADF), st1)

/-- Go `(*os.File).Sync`. The model has no volatile cache, so this only records the call. -/
def File.Sync (f : File) (st : OS) : Option Error × OS :=
  let st1 := st.log "fsync" f.name
  if f.closed then (some .ErrClosed, st1) else (none, st1)

/-- Go `(*os.File).Close`. -/
def File.Close (f : File) (st : OS) : Option Error × File × OS :=
  if f.closed then (some .ErrClosed, f, st)
  else (none, { f with closed := true }, st.log "close" f.name)

/-- Go `(*os.File).Readdir`: with `n > 0` at most `n` entries, and `io.EOF` with an empty
result at the end of the directory; with `n <= 0` all remaining entries and no error. -/
def File.Readdir (f : File) (n : Int) (st : OS) : Except Error (List FileInfo) × File × OS :=
  let st1 := st.log "readdir" f.name
  if f.closed then (.error .ErrClosed, f, st1)
  else
    match st.root.walk f.target with
    | .ok (.dir es) =>
      let rest := (es.drop f.offset).map (fun e => FileInfo.ofNode e.1 e.2)
      if 0 < n then
        if rest = [] then (.error .EOF, f, st1)
        else (.ok (rest.take n.toNat), { f with offset := f.offset + (rest.take n.toNat).length }, st1)
      else (.ok rest, { f with offset := f.offset + rest.length }, st1)
    | .ok (.file _) => (.error (.PathError "readdirent" f.name .ENOTDIR), f, st1)
    | .error _ => (.error (.PathError "readdirent" f.name .EBADF), f, st1)

/-- Go `io.Copy(dst, src)` between two files: the bytes of the source from its cursor to
its end are read and written at the cursor of the destination. Reading in one piece and
in chunks agree as long as writing to the destination does not change what is left to
read from the source. A directory as source makes the copy fail; which error value Go
reports for it depends on how the copy is carried out and is not relied upon. -/
def io.Copy (dst src : File) (st : OS) : Except Error Nat × File × File × OS :=
  let st1 := st.log "read" src.name
  if src.closed then (.error .ErrClosed, dst, src, st1)
  else if !src.canRead then (.error (.PathError "read" src.name .EBADF), dst, src, st1)
  else
    match st.root.walk src.target with
    | .ok (.file d) =>
      let got := d.drop src.offset
      let src1 := { src with offset := src.offset + got.length }
      if got = [] then (.ok 0, dst, src1, st1)
      else
        match dst.Write got st1 with
        | (.ok n, dst1, st2) => (.ok n, dst1, src1, st2)
        | (.error e, dst1, st2) => (.error e, dst1, src1, st2)
    | .ok (.dir _) => (.error (.PathError "read" src.name .EISDIR), dst, src, st1)
    | .error _ => (.error (.PathError "read" src.name .EBADF), dst, src, st1)

/-! ## Collaborating library types -/

/-- Modelled from the spec: the connection options of `iomix/connect` are not part of the
sources; they are "a generic connection options accessor (key to value lookup)". `Items`
is the list of configured items. -/
structure ConnOptions where
  Items : List (String × String)

/-- Modelled from the spec: `copts.Items.Get(key)`, the value of the first item with that
key together with whether there is one. -/
def ConnOptions.Get (copts : ConnOptions) (key : String) : Option String :=
  (copts.Items.find? (fun kv => kv.1 = key)).map (fun kv => kv.2)

/-- Modelled from the spec: the status of an `skv.Result`, "an OK status or an error
status". -/
inductive ResultStatus where
  | ResultOK
  | ResultError
  deriving DecidableEq, Repr

/-- Modelled from the spec: `skv.Result`, "a structured result carrying an OK status or an
error status with the underlying cause". -/
structure Result where
  status : ResultStatus
  cause : Option Error
  deriving DecidableEq, Repr

/-- Modelled from the spec: the package helper `newResult(status, err)`, which is not part
of the sources; it builds the result from a status and the underlying cause. -/
def newResult (status : ResultStatus) (err : Option Error) : Result :=
  { status := status, cause := err }

/-! ## `localfs.go` -/

/-- The handle `FsObject`, wrapping one open file. -/
structure FsObject where
  fp : File
  deriving DecidableEq, Repr

/-- The metadata wrapper `FsObjectMeta`. -/
structure FsObjectMeta where
  info : FileInfo
  deriving DecidableEq, Repr

/-- The connector options: the root directory `DataDir`. -/
structure options where
  DataDir : String
  deriving DecidableEq, Repr

/-- The connector `Connector`. -/
structure Connector where
  opts : options
  deriving DecidableEq, Repr

/-- The constructor `Open(copts)`. -/
def Open (copts : ConnOptions) (st : OS) : Except Error Connector × OS :=
  match copts.Get "data_dir" with
  | none => (.error (.New "No Storage Dir Found"), st)
  | some v =>
    let opts : options := { DataDir := Clean v }
    match os.Stat opts.DataDir st with
    | (.error _, st1) => (.error (.New ("Storage Dir (" ++ opts.DataDir ++ ") Not Found")), st1)
    | (.ok stat, st1) =>
      if !stat.isDir then
        (.error (.New ("Storage Dir (" ++ opts.DataDir ++ ") Is Not Dir")), st1)
      else (.ok { opts := opts }, st1)

/-- The method `Stat` of `Connector`. -/
def Connector.Stat (conn : Connector) (path : String) (st : OS) : Except Error FileInfo × OS :=
  let path := Clean path
  if path = "" ∨ path = "." ∨ path = ".." then (.error (.New "Invalid Path"), st)
  else
    match os.Stat (conn.opts.DataDir ++ "/" ++ Clean path) st with
    | (.error err, st1) => (.error err, st1)
    | (.ok stat, st1) => (.ok stat, st1)

/-- The method `MkdirAll` of `Connector`. -/
def Connector.MkdirAll (conn : Connector) (path : String) (perm : Nat) (st : OS) :
    Option Error × OS :=
  let path := Clean path
  if path = "" ∨ path = "." ∨ path = ".." then (some (.New "Invalid Path"), st)
  else os.MkdirAll (conn.opts.DataDir ++ "/" ++ Clean path) perm st

/-- The method `Open` of `Connector`. -/
def Connector.Open (conn : Connector) (path : String) (st : OS) : Except Error FsObject × OS :=
  let path := Clean path
  if path = "" ∨ path = "." ∨ path = ".." then (.error (.New "Invalid Path"), st)
  else
    match os.Open (conn.opts.DataDir ++ "/" ++ Clean path) st with
    | (.error err, st1) => (.error err, st1)
    | (.ok fp, st1) => (.ok { fp := fp }, st1)

/-- The method `OpenFile` of `Connector`. -/
def Connector.OpenFile (conn : Connector) (path : String) (flag : Nat) (perm : Nat) (st : OS) :
    Except Error FsObject × OS :=
  let path := Clean path
  if path = "" ∨ path = "." ∨ path = ".." then (.error (.New "Invalid Path"), st)
  else
    match os.OpenFile (conn.opts.DataDir ++ "/" ++ Clean path) flag perm st with
    | (.error err, st1) => (.error err, st1)
    | (.ok fp, st1) => (.ok { fp := fp }, st1)

/-- The method `List` of `Connector`; the deferred `fp.Close()` runs on every return after
the directory was opened. -/
def Connector.List (conn : Connector) (path : String) (limit : Int) (st : OS) :
    Except Error (List FileInfo) × OS :=
  let path := Clean path
  if path = "" ∨ path = "." ∨ path = ".." then (.error (.New "Invalid Path"), st)
  else
    match os.Open (conn.opts.DataDir ++ "/" ++ Clean path) st with
    | (.error err, st1) => (.error err, st1)
    | (.ok fp, st1) =>
      match fp.Readdir limit st1 with
      | (.error err, fp1, st2) => (.error err, (fp1.Close st2).2.2)
      | (.ok rs, fp1, st2) =>
        let ls := rs.foldl (fun ls v => ls ++ [v]) []
        (.ok ls, (fp1.Close st2).2.2)

/-- The method `Close` of `Connector`. -/
def Connector.Close (conn : Connector) : Option Error :=
  none

/-- The method `Readdir` of `FsObject`. -/
def FsObject.Readdir (fo : FsObject) (count : Int) : Except Error (List FileInfo) :=
  .ok []

/-- The method `Stat` of `FsObject`. -/
def FsObject.Stat (fo : FsObject) (st : OS) : Except Error FsObjectMeta × OS :=
  match fo.fp.Stat st with
  | (.error err, st1) => (.error err, st1)
  | (.ok info, st1) => (.ok { info := info }, st1)

/-- The method `Seek` of `FsObject`. -/
def FsObject.Seek (fo : FsObject) (offset : Int) (whence : Int) (st : OS) :
    Except Error Int × FsObject × OS :=
  match fo.fp.Seek offset whence st with
  | (r, fp1, st1) => (r, { fp := fp1 }, st1)

/-- The method `Read` of `FsObject`, for a buffer of `n` bytes. -/
def FsObject.Read (fo : FsObject) (n : Nat) (st : OS) : Except Error (List Byte) × FsObject × OS :=
  match fo.fp.Read n st with
  | (r, fp1, st1) => (r, { fp := fp1 }, st1)

/-- The method `Write` of `FsObject`: `fo.fp.WriteAt(b, 0)`. -/
def FsObject.Write (fo : FsObject) (b : List Byte) (st : OS) : Except Error Nat × FsObject × OS :=
  match fo.fp.WriteAt b 0 st with
  | (r, fp1, st1) => (r, { fp := fp1 }, st1)

/-- The method `WriteAt` of `FsObject`. -/
def FsObject.WriteAt (fo : FsObject) (b : List Byte) (off : Int) (st : OS) :
    Except Error Nat × FsObject × OS :=
  match fo.fp.WriteAt b off st with
  | (r, fp1, st1) => (r, { fp := fp1 }, st1)

/-- The method `Truncate` of `FsObject`. -/
def FsObject.Truncate (fo : FsObject) (size : Int) (st : OS) : Option Error × OS :=
  fo.fp.Truncate size st

/-- The method `Close` of `FsObject`. -/
def FsObject.Close (fo : FsObject) (st : OS) : Option Error × FsObject × OS :=
  match fo.fp.Close st with
  | (r, fp1, st1) => (r, { fp := fp1 }, st1)

/-- The accessor `Name` of `FsObjectMeta`. -/
def FsObjectMeta.Name (foi : FsObjectMeta) : String :=
  foi.info.name

/-- The accessor `Size` of `FsObjectMeta`. -/
def FsObjectMeta.Size (foi : FsObjectMeta) : Nat :=
  foi.info.size

/-- The accessor `IsDir` of `FsObjectMeta`. -/
def FsObjectMeta.IsDir (foi : FsObjectMeta) : Bool :=
  foi.info.isDir

/-! ## `file-object.go` -/

/-- The options of the file-object connector. -/
structure foOptions where
  DataDir : String
  deriving DecidableEq, Repr

/-- The connector `FileObjectConnector`. -/
structure FileObjectConnector where
  opts : foOptions
  deriving DecidableEq, Repr

/-- The constructor `FileObjectConnect(copts)`. -/
def FileObjectConnect (copts : ConnOptions) (st : OS) : Except Error FileObjectConnector × OS :=
  match copts.Get "data_dir" with
  | none => (.error (.New "No Storage Dir Found"), st)
  | some v =>
    let opts : foOptions := { DataDir := Clean v }
    match os.Stat opts.DataDir st with
    | (.error _, st1) => (.error (.New ("Storage Dir (" ++ opts.DataDir ++ ") Not Found")), st1)
    | (.ok stat, st1) =>
      if !stat.isDir then
        (.error (.New ("Storage Dir (" ++ opts.DataDir ++ ") Is Not Dir")), st1)
      else (.ok { opts := opts }, st1)

/-- The method `FoFileOpen` of `FileObjectConnector`. -/
def FileObjectConnector.FoFileOpen (conn : FileObjectConnector) (path : String) (st : OS) :
    Except Error FsObject × OS :=
  let path := Clean path
  if path = "" ∨ path = "." ∨ path = ".." then (.error (.New "Invalid Path"), st)
  else
    match os.Open (conn.opts.DataDir ++ "/" ++ Clean path) st with
    | (.error err, st1) => (.error err, st1)
    | (.ok fp, st1) => (.ok { fp := fp }, st1)

/-- The part of `FoFilePut` after the destination was opened: seek, truncate, copy, sync;
the deferred `fpdst.Close()` runs on every return. -/
def foFilePutStream (fpdst fpsrc : File) (st : OS) : Result × File × OS :=
  match fpdst.Seek 0 0 st with
  | (_, fpdst1, st1) =>
    match fpdst1.Truncate 0 st1 with
    | (_, st2) =>
      match io.Copy fpdst1 fpsrc st2 with
      | (.error err, fpdst2, fpsrc1, st3) =>
        (newResult .ResultError (some err), fpsrc1, (fpdst2.Close st3).2.2)
      | (.ok _, fpdst2, fpsrc1, st3) =>
        match fpdst2.Sync st3 with
        | (some err, st4) => (newResult .ResultError (some err), fpsrc1, (fpdst2.Close st4).2.2)
        | (none, st4) => (newResult .ResultOK none, fpsrc1, (fpdst2.Close st4).2.2)

/-- The part of `FoFilePut` after the source was opened: the size check and the opening of
the destination; the deferred `fpsrc.Close()` is run by the caller on every return. -/
def foFilePutCopy (dst_path : String) (fpsrc : File) (st : OS) : Result × File × OS :=
  match fpsrc.Stat st with
  | (.error err, st1) => (newResult .ResultError (some err), fpsrc, st1)
  | (.ok sts, st1) =>
    if sts.size < 1 then (newResult .ResultError (some (.New "zero size")), fpsrc, st1)
    else
      match os.OpenFile dst_path (O_RDWR ||| O_CREATE) 0o644 st1 with
      | (.error err, st2) => (newResult .ResultError (some err), fpsrc, st2)
      | (.ok fpdst, st2) => foFilePutStream fpdst fpsrc st2

/-- The part of `FoFilePut` after the two path checks. -/
def foFilePutOpen (src_path dst_path : String) (st : OS) : Result × OS :=
  match os.Open src_path st with
  | (.error err, st1) => (newResult .ResultError (some err), st1)
  | (.ok fpsrc, st1) =>
    match foFilePutCopy dst_path fpsrc st1 with
    | (r, fpsrc1, st2) => (r, (fpsrc1.Close st2).2.2)

/-- The method `FoFilePut` of `FileObjectConnector`. -/
def FileObjectConnector.FoFilePut (conn : FileObjectConnector) (src_path dst_path : String)
    (st : OS) : Result × OS :=
  let src_path := Clean src_path
  if src_path = "" ∨ src_path = "." ∨ src_path = ".." then
    (newResult .ResultError (some (.New "Invalid SRC Path")), st)
  else
    let dst_path := Clean (conn.opts.DataDir ++ "/" ++ dst_path)
    if dst_path = "" ∨ dst_path = "." ∨ dst_path = ".." then
      (newResult .ResultError (some (.New "Invalid DST Path")), st)
    else
      let dst_dir := Dir dst_path
      if dst_dir ≠ "" then
        match os.MkdirAll dst_dir 0o755 st with
        | (some err, st1) => (newResult .ResultError (some err), st1)
        | (none, st1) => foFilePutOpen src_path dst_path st1
      else foFilePutOpen src_path dst_path st

/-- The method `Close` of `FileObjectConnector`. -/
def FileObjectConnector.Close (conn : FileObjectConnector) : Option Error :=
  none

/-! ## Predicates used in the statements -/

/-- A handle open for writing, and not in append mode, on the regular file with content
`content`: it is not closed, was opened with `O_WRONLY` or `O_RDWR`, possibly with
`O_CREATE`, `O_EXCL` or `O_TRUNC`, with no other flag and in particular without
`O_APPEND`, and refers to that file. -/
def FsObject.writableNoAppend (fo : FsObject) (st : OS) (content : List Byte) : Bool :=
  !fo.fp.closed && plainFlags fo.fp.flag && fo.fp.canWrite && !fo.fp.appendMode &&
    st.root.fileAt fo.fp.target == some content

/-- A location strictly below another one. -/
def properDescendant (t r : List Name) : Bool :=
  r.length < t.length && t.take r.length == r

/-- The file status of the entries of a directory, in directory order. -/
def entryInfos (es : List (Name × Node)) : List FileInfo :=
  es.map (fun e => FileInfo.ofNode e.1 e.2)

/-- Whether a call returned a value rather than an error. -/
def succeeded {α : Type} (r : Except Error α) : Bool :=
  match r with
  | .ok _ => true
  | .error _ => false

/-- The working directory of the process is a directory of the filesystem. -/
def OS.wf (st : OS) : Bool :=
  (st.root.dirAt st.cwd).isSome

/-! ## Invariants used in the proofs -/

/-- The separator `filepath.Clean` writes before a real path element. -/
def sepFor (rooted : Bool) (out : List Char) : List Char :=
  if (rooted && out.length != 1) || (!rooted && out.length != 0) then ['/'] else []

/-- The shape of the buffer of `filepath.Clean`: up to `dotdot` it is `/` (rooted) or a
chain of `..` elements, and after it come real path elements, each preceded by the
separator the loop writes. -/
inductive CleanBuf (rooted : Bool) (dotdot : Nat) : List Char → Prop where
  | base (out : List Char) (hlen : out.length = dotdot) (hroot : rooted = true → out = ['/'])
      (hrel : rooted = false → out.head? ≠ some '/') : CleanBuf rooted dotdot out
  | push (out0 elem : List Char) (h0 : CleanBuf rooted dotdot out0) (hne : elem ≠ [])
      (hdot : elem ≠ ['.']) (hdotdot : elem ≠ ['.', '.']) (hslash : ∀ c ∈ elem, c ≠ '/') :
      CleanBuf rooted dotdot (out0 ++ sepFor rooted out0 ++ elem)

/-! ## Concrete scenarios -/

/-- A filesystem with the root `/data` holding `a/f.txt`, the empty directory `empty`, the
directory `five` with five entries and the file `old.bin`, and, outside the root,
`/etc/passwd`, `/src.bin` and `/zero.bin`. -/
def demoRoot : Node :=
  .dir [
    ("data", .dir [
      ("a", .dir [("f.txt", .file [104, 105])]),
      ("empty", .dir []),
      ("five", .dir [("1", .file [1]), ("2", .file [2, 2]), ("3", .dir []), ("4", .file []),
        ("5", .file [5])]),
      ("old.bin", .file [9, 9, 9, 9])]),
    ("etc", .dir [("passwd", .file [114, 111, 111, 116])]),
    ("src.bin", .file [1, 2, 3]),
    ("zero.bin", .file [])]

/-- The machine state over `demoRoot`, working directory `/`, no call issued yet. -/
def demoOS : OS :=
  { root := demoRoot, cwd := [], calls := [] }

/-- The connector rooted at `/data`. -/
def demoConn : Connector :=
  { opts := { DataDir := "/data" } }

/-- The file-object connector rooted at `/data`. -/
def demoFoConn : FileObjectConnector :=
  { opts := { DataDir := "/data" } }

/-- A handle on `/data/old.bin`, opened read-write, with the cursor at offset 3. -/
def demoHandle : FsObject :=
  { fp := { name := "/data/old.bin", target := ["data", "old.bin"], flag := O_RDWR,
            offset := 3, closed := false } }

/-- The state of `demoOS` after `/data` has been removed: only `/src.bin` is left. -/
def goneRootOS : OS :=
  { root := .dir [("src.bin", .file [1, 2, 3])], cwd := [], calls := [] }

/-- The flags of a handle opened write-only in append mode. -/
def appendFlags : Nat := O_WRONLY ||| O_APPEND

/-! ## Path resolution and `filepath.Clean` -/

theorem splitSlash_ne_nil (p : List Char) : splitSlash p ≠ [] := by
  induction p with
  | nil => simp [splitSlash]
  | cons c cs ih =>
    unfold splitSlash
    split
    · simp
    · split <;> simp

theorem splitSlash_noslash (e : List Char) (h : ∀ c ∈ e, c ≠ '/') : splitSlash e = [e] := by
  induction e with
  | nil => simp [splitSlash]
  | cons c cs ih =>
    have hc : c ≠ '/' := h c (by simp)
    have hcs : ∀ x ∈ cs, x ≠ '/' := fun x hx => h x (by simp [hx])
    simp [splitSlash, hc, ih hcs]

theorem splitSlash_append (a b : List Char) :
    splitSlash (a ++ '/' :: b) = splitSlash a ++ splitSlash b := by
  induction a with
  | nil => simp [splitSlash]
  | cons c cs ih =>
    by_cases hc : c = '/'
    · simp [splitSlash, hc, ih]
    · have hne := splitSlash_ne_nil cs
      cases hsp : splitSlash cs with
      | nil => exact absurd hsp hne
      | cons h t => simp [splitSlash, hc, ih, hsp]

theorem resolveFrom_nil (s : List Name) : resolveFrom s [] = s := by
  simp [resolveFrom, splitSlash, walkStep]

theorem resolveFrom_append_slash (s : List Name) (a b : List Char) :
    resolveFrom s (a ++ '/' :: b) = resolveFrom (resolveFrom s a) b := by
  simp [resolveFrom, splitSlash_append, List.foldl_append]

theorem resolveFrom_noslash (s : List Name) (e : List Char) (h : ∀ c ∈ e, c ≠ '/') :
    resolveFrom s e = walkStep s e := by
  simp [resolveFrom, splitSlash_noslash e h]

theorem foldl_walkStep_element (x : List Name) (e t2 : List Char) (h : ∀ c ∈ e, c ≠ '/')
    (ht : t2 = [] ∨ t2.head? = some '/') :
    (splitSlash (e ++ t2)).foldl walkStep x = (splitSlash t2).foldl walkStep (walkStep x e) := by
  rcases ht with ht | ht
  · subst ht
    simp [splitSlash_noslash e h, splitSlash, walkStep]
  · cases t2 with
    | nil => simp at ht
    | cons c t3 =>
      simp at ht
      subst ht
      rw [splitSlash_append, splitSlash_noslash e h]
      simp [splitSlash, walkStep]

theorem walkStep_real (s : List Name) (e : List Char) (hne : e ≠ []) (hdot : e ≠ ['.'])
    (hdotdot : e ≠ ['.', '.']) : walkStep s e = s ++ [String.mk e] := by
  simp [walkStep, hne, hdot, hdotdot]

theorem CleanBuf.dotdot_le {rooted : Bool} {dd : Nat} {out : List Char}
    (h : CleanBuf rooted dd out) : dd ≤ out.length := by
  induction h with
  | base out hlen _ _ => omega
  | push out0 elem _ _ _ _ _ ih => simp; omega

theorem CleanBuf.rooted_dotdot {dd : Nat} {out : List Char} (h : CleanBuf true dd out) :
    dd = 1 := by
  induction h with
  | base out hlen hroot _ => rw [hroot rfl] at hlen; simpa using hlen.symm
  | push _ _ _ _ _ _ _ ih => exact ih

theorem CleanBuf.head_rooted {dd : Nat} {out : List Char} (h : CleanBuf true dd out) :
    out.head? = some '/' := by
  induction h with
  | base out hlen hroot _ => rw [hroot rfl]; rfl
  | push out0 elem _ _ _ _ _ ih =>
    cases out0 with
    | nil => simp at ih
    | cons c t => simpa using ih

theorem CleanBuf.head_relative {dd : Nat} {out : List Char} (h : CleanBuf false dd out) :
    out.head? ≠ some '/' := by
  induction h with
  | base out hlen _ hrel => exact hrel rfl
  | push out0 elem _ hne _ _ hslash ih =>
    cases out0 with
    | nil =>
      cases elem with
      | nil => exact absurd rfl hne
      | cons c t =>
        have := hslash c (by simp)
        simpa [sepFor] using this
    | cons c t => simpa using ih

theorem sepFor_cases (rooted : Bool) (out : List Char) :
    sepFor rooted out = ['/'] ∨ sepFor rooted out = [] := by
  unfold sepFor
  split <;> simp

theorem CleanBuf.sepFor_nil {rooted : Bool} {dd : Nat} {out : List Char}
    (h : CleanBuf rooted dd out) (hs : sepFor rooted out = []) : out.length = dd := by
  have hle := h.dotdot_le
  cases rooted with
  | true =>
    have hdd := h.rooted_dotdot
    by_cases h1 : out.length = 1
    · omega
    · simp [sepFor, h1] at hs
  | false =>
    by_cases h0 : out.length = 0
    · omega
    · simp [sepFor, h0] at hs

theorem backtrackLoop_sep (dd : Nat) (r : List Char) (hr : dd ≤ r.length) :
    ∀ l : List Char, l ≠ [] → (∀ c ∈ l, c ≠ '/') → backtrackLoop dd (l ++ '/' :: r) = r := by
  intro l
  induction l with
  | nil => intro h; exact absurd rfl h
  | cons c l ih =>
    intro _ hs
    have hc : c ≠ '/' := hs c (by simp)
    cases l with
    | nil =>
      have h1 : dd < r.length + 1 := by omega
      simp [backtrackLoop, hc, h1]
    | cons c2 l2 =>
      have hrec := ih (by simp) (fun x hx => hs x (by simp [hx]))
      have h1 : dd < ((c2 :: l2) ++ '/' :: r).length := by simp; omega
      simp only [List.cons_append, backtrackLoop] at hrec ⊢
      simp only [List.cons_append] at h1
      rw [if_pos ⟨h1, hc⟩]
      exact hrec

theorem backtrackLoop_nosep (dd : Nat) (r : List Char) (hr : r.length = dd) :
    ∀ l : List Char, l ≠ [] → (∀ c ∈ l, c ≠ '/') → backtrackLoop dd (l ++ r) = r := by
  intro l
  induction l with
  | nil => intro h; exact absurd rfl h
  | cons c l ih =>
    intro _ hs
    have hc : c ≠ '/' := hs c (by simp)
    cases l with
    | nil => simp [backtrackLoop, hr]
    | cons c2 l2 =>
      have hrec := ih (by simp) (fun x hx => hs x (by simp [hx]))
      have h1 : dd < ((c2 :: l2) ++ r).length := by simp; omega
      simp only [List.cons_append, backtrackLoop] at hrec ⊢
      simp only [List.cons_append] at h1
      rw [if_pos ⟨h1, hc⟩]
      exact hrec

theorem CleanBuf.backtrack {rooted : Bool} {dd : Nat} {out0 : List Char}
    (h0 : CleanBuf rooted dd out0) (elem : List Char) (hne : elem ≠ [])
    (hslash : ∀ c ∈ elem, c ≠ '/') :
    (backtrackLoop dd (out0 ++ sepFor rooted out0 ++ elem).reverse).reverse = out0 := by
  have hrev : elem.reverse ≠ [] := by simpa using hne
  have hsl : ∀ c ∈ elem.reverse, c ≠ '/' := fun c hc => hslash c (by simpa using hc)
  rcases sepFor_cases rooted out0 with hs | hs
  · rw [hs]
    have := backtrackLoop_sep dd out0.reverse (by simpa using h0.dotdot_le) elem.reverse hrev hsl
    simp only [List.reverse_append, List.reverse_cons, List.reverse_nil, List.nil_append,
      List.append_assoc, List.singleton_append]
    rw [this, List.reverse_reverse]
  · rw [hs]
    have := backtrackLoop_nosep dd out0.reverse (by simpa using h0.sepFor_nil hs) elem.reverse
      hrev hsl
    simp only [List.reverse_append, List.append_nil]
    rw [this, List.reverse_reverse]

theorem CleanBuf.resolve_push {rooted : Bool} {dd : Nat} {out0 : List Char}
    (h0 : CleanBuf rooted dd out0) (s : List Name) (elem : List Char)
    (hslash : ∀ c ∈ elem, c ≠ '/') :
    resolveFrom s (out0 ++ sepFor rooted out0 ++ elem) = walkStep (resolveFrom s out0) elem := by
  rcases sepFor_cases rooted out0 with hs | hs
  · rw [hs]
    simp only [List.append_assoc, List.singleton_append]
    rw [resolveFrom_append_slash, resolveFrom_noslash _ _ hslash]
  · rw [hs]
    have hlen := h0.sepFor_nil hs
    cases rooted with
    | true =>
      have hdd := h0.rooted_dotdot
      have hh := h0.head_rooted
      cases out0 with
      | nil => simp at hh
      | cons c t =>
        simp at hh
        subst hh
        have ht : t = [] := by
          simp only [List.length_cons] at hlen
          have : t.length = 0 := by omega
          simpa using this
        subst ht
        have e1 : (['/'] ++ [] ++ elem : List Char) = [] ++ '/' :: elem := by simp
        have e2 : (['/'] : List Char) = [] ++ '/' :: [] := by simp
        rw [e1, resolveFrom_append_slash, e2, resolveFrom_append_slash]
        simp [resolveFrom_nil, resolveFrom_noslash _ _ hslash]
    | false =>
      have hnil : out0 = [] := by
        by_cases h0len : out0.length = 0
        · simpa using h0len
        · simp [sepFor, h0len] at hs
      subst hnil
      simp [resolveFrom_nil, resolveFrom_noslash _ _ hslash]

theorem takeWhile_noslash (l : List Char) : ∀ c ∈ l.takeWhile (· ≠ '/'), c ≠ '/' := by
  intro c hc
  have := List.mem_takeWhile_imp hc
  simpa using this

theorem dropWhile_noslash (l : List Char) :
    l.dropWhile (· ≠ '/') = [] ∨ (l.dropWhile (· ≠ '/')).head? = some '/' := by
  induction l with
  | nil => simp
  | cons c t ih =>
    by_cases hc : c = '/'
    · right; simp [List.dropWhile, hc]
    · simpa [List.dropWhile, hc] using ih

theorem dropWhile_length_le (l : List Char) : (l.dropWhile (· ≠ '/')).length ≤ l.length :=
  (List.dropWhile_sublist _).length_le

theorem cleanLoop_spec (rooted : Bool) (s : List Name) (hs : rooted = true → s = []) :
    ∀ (fuel : Nat) (rest out : List Char) (dd : Nat), rest.length ≤ fuel →
      CleanBuf rooted dd out →
      resolveFrom s (cleanLoop rooted fuel rest out dd) =
          (splitSlash rest).foldl walkStep (resolveFrom s out) ∧
        ∃ dd1, CleanBuf rooted dd1 (cleanLoop rooted fuel rest out dd) := by
  intro fuel
  induction fuel with
  | zero =>
    intro rest out dd hlen hbuf
    have : rest = [] := by simpa using hlen
    subst this
    exact ⟨by simp [cleanLoop, splitSlash, walkStep], dd, by simpa [cleanLoop] using hbuf⟩
  | succ fuel ih =>
    intro rest out dd hlen hbuf
    cases rest with
    | nil => exact ⟨by simp [cleanLoop, splitSlash, walkStep], dd, by simpa [cleanLoop] using hbuf⟩
    | cons c t =>
      have hlen1 : t.length ≤ fuel := by simpa using hlen
      rw [cleanLoop]
      by_cases h1 : c = '/'
      · -- empty path element
        rw [if_pos h1]
        subst h1
        have := ih t out dd hlen1 hbuf
        refine ⟨?_, this.2⟩
        rw [this.1]
        simp [splitSlash, walkStep]
      · rw [if_neg h1]
        by_cases h2 : c = '.' ∧ (t = [] ∨ t.head? = some '/')
        · -- . element
          rw [if_pos h2]
          obtain ⟨hc, ht⟩ := h2
          subst hc
          have := ih t out dd hlen1 hbuf
          refine ⟨?_, this.2⟩
          rw [this.1]
          have key := foldl_walkStep_element (resolveFrom s out) ['.'] t (by simp) ht
          simp only [List.singleton_append] at key
          rw [key]
          simp [walkStep]
        · rw [if_neg h2]
          by_cases h3 : c = '.' ∧ t.head? = some '.' ∧ (t.tail = [] ∨ t.tail.head? = some '/')
          · -- .. element
            rw [if_pos h3]
            obtain ⟨hc, hd, ht⟩ := h3
            subst hc
            cases t with
            | nil => simp at hd
            | cons d t2 =>
              simp at hd
              subst hd
              simp only [List.tail_cons] at ht ⊢
              have hlen2 : t2.length ≤ fuel := by simp at hlen1; omega
              have key := foldl_walkStep_element (resolveFrom s out) ['.', '.'] t2 (by simp) ht
              simp only [List.cons_append, List.nil_append] at key
              rw [key]
              have hpop : walkStep (resolveFrom s out) ['.', '.'] = (resolveFrom s out).dropLast := by
                simp [walkStep]
              rw [hpop]
              by_cases hw : out.length > dd
              · rw [if_pos hw]
                cases hbuf with
                | base _ hl _ _ => omega
                | push out0 elem h0 hne hdot hdotdot hslash =>
                  rw [h0.backtrack elem hne hslash, h0.resolve_push s elem hslash,
                    walkStep_real _ _ hne hdot hdotdot, List.dropLast_concat]
                  exact ih t2 out0 dd hlen2 h0
              · rw [if_neg hw]
                cases rooted with
                | false =>
                  simp only [Bool.not_false, if_true]
                  have hb : CleanBuf false
                      ((if out.length > 0 then out ++ ['/'] else out) ++ ['.', '.']).length
                      ((if out.length > 0 then out ++ ['/'] else out) ++ ['.', '.']) := by
                    refine CleanBuf.base _ rfl (by simp) ?_
                    intro _
                    have hh := hbuf.head_relative
                    cases out with
                    | nil => simp
                    | cons a b => simpa using hh
                  have := ih t2 _ _ hlen2 hb
                  refine ⟨?_, this.2⟩
                  rw [this.1]
                  congr 1
                  cases out with
                  | nil => simp [resolveFrom, splitSlash, walkStep]
                  | cons a b =>
                    simp only [List.length_cons, gt_iff_lt, Nat.zero_lt_succ, if_true,
                      List.append_assoc, List.singleton_append]
                    rw [resolveFrom_append_slash]
                    simp [resolveFrom, splitSlash, walkStep]
                | true =>
                  simp only [Bool.not_true, Bool.false_eq_true, if_false]
                  have hnil := hs rfl
                  subst hnil
                  cases hbuf with
                  | base _ hl hroot _ =>
                    have hout := hroot rfl
                    subst hout
                    have := ih t2 ['/'] dd hlen2 (CleanBuf.base _ hl hroot (by simp))
                    refine ⟨?_, this.2⟩
                    rw [this.1]
                    simp [resolveFrom, splitSlash, walkStep]
                  | push out0 elem h0 hne _ _ _ =>
                    exfalso
                    have := h0.dotdot_le
                    have : elem.length ≠ 0 := by simpa using hne
                    simp at hw
                    omega
          · -- real path element
            rw [if_neg h3]
            have hsplit : c :: t = (c :: t).takeWhile (· ≠ '/') ++ (c :: t).dropWhile (· ≠ '/') :=
              (List.takeWhile_append_dropWhile _ _).symm
            have htw : (c :: t).takeWhile (· ≠ '/') = c :: t.takeWhile (· ≠ '/') := by
              simp [List.takeWhile, h1]
            have hdw : (c :: t).dropWhile (· ≠ '/') = t.dropWhile (· ≠ '/') := by
              simp [List.dropWhile, h1]
            have hsl := takeWhile_noslash (c :: t)
            have hne : (c :: t).takeWhile (· ≠ '/') ≠ [] := by rw [htw]; simp
            have hdot : (c :: t).takeWhile (· ≠ '/') ≠ ['.'] := by
              rw [htw]
              intro h
              simp at h
              apply h2
              refine ⟨h.1, ?_⟩
              cases t with
              | nil => left; rfl
              | cons a b =>
                right
                by_cases ha : a = '/'
                · simp [ha]
                · simp [List.takeWhile, ha] at h
            have hdotdot : (c :: t).takeWhile (· ≠ '/') ≠ ['.', '.'] := by
              rw [htw]
              intro h
              simp at h
              apply h3
              refine ⟨h.1, ?_⟩
              cases t with
              | nil => simp at h
              | cons a b =>
                by_cases ha : a = '/'
                · simp [List.takeWhile, ha] at h
                · simp [List.takeWhile, ha] at h
                  refine ⟨by simp [h.2.1], ?_⟩
                  simp only [List.tail_cons]
                  cases b with
                  | nil => left; rfl
                  | cons a2 b2 =>
                    right
                    by_cases ha2 : a2 = '/'
                    · simp [ha2]
                    · simp [List.takeWhile, ha2] at h
            have hout1 : (if (rooted && out.length != 1) || (!rooted && out.length != 0) then
                out ++ ['/'] else out) = out ++ sepFor rooted out := by
              unfold sepFor
              split <;> simp
            simp only [hout1]
            have hb : CleanBuf rooted dd
                (out ++ sepFor rooted out ++ (c :: t).takeWhile (· ≠ '/')) :=
              CleanBuf.push out _ hbuf hne hdot hdotdot hsl
            have hlen3 : ((c :: t).dropWhile (· ≠ '/')).length ≤ fuel := by
              rw [hdw]
              exact le_trans (dropWhile_length_le t) hlen1
            have := ih _ _ dd hlen3 hb
            refine ⟨?_, this.2⟩
            rw [this.1, hbuf.resolve_push s _ hsl]
            have key := foldl_walkStep_element (resolveFrom s out) _ _ hsl
              (dropWhile_noslash (c :: t))
            rw [← hsplit] at key
            rw [key]

/-- The iteration bound of `cleanLoop` is never reached: any bound of at least the length
of the unread input gives the same buffer. -/
theorem cleanLoop_fuel (rooted : Bool) :
    ∀ (f1 f2 : Nat) (rest out : List Char) (dd : Nat), rest.length ≤ f1 → rest.length ≤ f2 →
      cleanLoop rooted f1 rest out dd = cleanLoop rooted f2 rest out dd := by
  intro f1
  induction f1 with
  | zero =>
    intro f2 rest out dd h1 _
    have : rest = [] := by simpa using h1
    subst this
    cases f2 <;> simp [cleanLoop]
  | succ f1 ih =>
    intro f2 rest out dd h1 h2
    cases rest with
    | nil => cases f2 <;> simp [cleanLoop]
    | cons c t =>
      cases f2 with
      | zero => simp at h2
      | succ f2 =>
        have ht1 : t.length ≤ f1 := by simpa using h1
        have ht2 : t.length ≤ f2 := by simpa using h2
        have htl : t.tail.length ≤ t.length := by simp
        by_cases hc : c = '/'
        · rw [cleanLoop, cleanLoop, if_pos hc, if_pos hc]
          exact ih f2 t out dd ht1 ht2
        · have hdw : (c :: t).dropWhile (· ≠ '/') = t.dropWhile (· ≠ '/') := by
            simp [List.dropWhile, hc]
          have hd1 : ((c :: t).dropWhile (· ≠ '/')).length ≤ f1 := by
            rw [hdw]
            exact le_trans (dropWhile_length_le t) ht1
          have hd2 : ((c :: t).dropWhile (· ≠ '/')).length ≤ f2 := by
            rw [hdw]
            exact le_trans (dropWhile_length_le t) ht2
          rw [cleanLoop, cleanLoop]
          rw [ih f2 t out dd ht1 ht2]
          rw [ih f2 t.tail _ dd (by omega) (by omega)]
          rw [ih f2 t.tail _ _ (by omega) (by omega)]
          rw [ih f2 t.tail out dd (by omega) (by omega)]
          rw [ih f2 _ _ dd hd1 hd2]

theorem string_eq_empty_iff (p : String) : p = "" ↔ p.data = [] := by
  constructor
  · intro h; subst h; rfl
  · intro h; exact String.ext h

theorem cleanChars_spec (p : List Char) (s : List Name) (hs : p.head? = some '/' → s = []) :
    resolveFrom s (cleanChars p) = resolveFrom s p ∧
      ((p.head? = some '/' → (cleanChars p).head? = some '/') ∧
       (p.head? ≠ some '/' → (cleanChars p).head? ≠ some '/')) := by
  unfold cleanChars
  by_cases hr : p.head? = some '/'
  · rw [if_pos hr]
    have hnil := hs hr
    subst hnil
    cases p with
    | nil => simp at hr
    | cons c t =>
      simp at hr
      subst hr
      have hb : CleanBuf true 1 ['/'] := CleanBuf.base _ rfl (fun _ => rfl) (by simp)
      obtain ⟨h1, dd1, h2⟩ := cleanLoop_spec true [] (fun _ => rfl) ('/' :: t).length t ['/'] 1
        (by simp) hb
      simp only [List.tail_cons]
      refine ⟨?_, fun _ => h2.head_rooted, fun h => absurd rfl h⟩
      rw [h1]
      simp [resolveFrom, splitSlash, walkStep]
  · rw [if_neg hr]
    have hb : CleanBuf false 0 [] := CleanBuf.base _ rfl (by simp) (by simp)
    obtain ⟨h1, dd1, h2⟩ := cleanLoop_spec false s (by simp) p.length p [] 0 (le_refl _) hb
    refine ⟨?_, fun h => absurd h hr, fun _ => h2.head_relative⟩
    rw [h1, resolveFrom_nil]
    rfl

theorem Clean_data (p : String) :
    (Clean p).data = if p.data = [] ∨ cleanChars p.data = [] then ['.'] else cleanChars p.data := by
  unfold Clean
  by_cases h : p = ""
  · have h1 := (string_eq_empty_iff p).1 h
    simp only [h, if_true]
    simp
  · have h1 : ¬ p.data = [] := fun hh => h ((string_eq_empty_iff p).2 hh)
    simp only [if_neg h]
    by_cases h2 : cleanChars p.data = []
    · simp [h2]
    · have : ¬ (cleanChars p.data).length = 0 := by simpa using h2
      simp [h1, h2]

theorem isRooted_Clean (p : String) : isRooted (Clean p) = isRooted p := by
  have hspec := (cleanChars_spec p.data [] (fun _ => rfl)).2
  unfold isRooted
  rw [Clean_data]
  by_cases h : p.data = [] ∨ cleanChars p.data = []
  · rw [if_pos h]
    rcases h with h | h
    · rw [h]; rfl
    · by_cases hr : p.data.head? = some '/'
      · have := hspec.1 hr
        rw [h] at this
        simp at this
      · simp [hr]
  · rw [if_neg h]
    by_cases hr : p.data.head? = some '/'
    · simp [hr, hspec.1 hr]
    · simp [hr, hspec.2 hr]

theorem resolveFrom_Clean (p : String) (s : List Name) (hs : isRooted p = true → s = []) :
    resolveFrom s (Clean p).data = resolveFrom s p.data := by
  have hspec := cleanChars_spec p.data s (by simpa [isRooted] using hs)
  rw [Clean_data]
  by_cases h : p.data = [] ∨ cleanChars p.data = []
  · rw [if_pos h]
    rcases h with h | h
    · rw [h]; simp [resolveFrom, splitSlash, walkStep]
    · rw [← hspec.1, h]; simp [resolveFrom, splitSlash, walkStep]
  · rw [if_neg h]
    exact hspec.1

theorem OS.resolve_Clean (st : OS) (p : String) : st.resolve (Clean p) = st.resolve p := by
  unfold OS.resolve
  rw [isRooted_Clean]
  apply resolveFrom_Clean
  intro h
  simp [h]

/-! ## The filesystem tree -/

theorem findEntry_putEntry_self (c : Name) (n : Node) (es : List (Name × Node)) :
    findEntry c (putEntry c n es) = some n := by
  induction es with
  | nil => simp [putEntry, findEntry]
  | cons e es ih =>
    by_cases h : e.1 = c
    · simp [putEntry, findEntry, h]
    · simp [putEntry, findEntry, h, ih]

theorem findEntry_putEntry_other (c c1 : Name) (n : Node) (es : List (Name × Node))
    (h : c1 ≠ c) : findEntry c1 (putEntry c n es) = findEntry c1 es := by
  induction es with
  | nil => simp [putEntry, findEntry, Ne.symm h]
  | cons e es ih =>
    by_cases he : e.1 = c
    · have : e.1 ≠ c1 := by rw [he]; exact Ne.symm h
      simp [putEntry, findEntry, he, Ne.symm h, this]
    · by_cases he1 : e.1 = c1
      · have hcc : ¬ c1 = c := h
        simp [putEntry, findEntry, he1, hcc]
      · simp [putEntry, findEntry, he, he1, ih]

theorem Node.fileAt_iff (root : Node) (t : List Name) (d : List Byte) :
    root.fileAt t = some d ↔ root.walk t = .ok (.file d) := by
  unfold Node.fileAt
  split
  · rename_i d1 h
    rw [h]
    constructor
    · intro hh; simp at hh; rw [hh]
    · intro hh; simp at hh; rw [hh]
  · rename_i h
    constructor
    · intro hh; simp at hh
    · intro hh; exact absurd hh (h d)

theorem Node.fileAt_file_nil (d : List Byte) : (Node.file d).fileAt [] = some d := by
  simp [Node.fileAt, Node.walk]

theorem Node.fileAt_file_cons (d : List Byte) (c : Name) (cs : List Name) :
    (Node.file d).fileAt (c :: cs) = none := by
  simp [Node.fileAt, Node.walk]

theorem Node.fileAt_dir_nil (es : List (Name × Node)) : (Node.dir es).fileAt [] = none := by
  simp [Node.fileAt, Node.walk]

theorem Node.fileAt_dir_cons (es : List (Name × Node)) (c : Name) (cs : List Name) :
    (Node.dir es).fileAt (c :: cs) =
      match findEntry c es with
      | some child => child.fileAt cs
      | none => none := by
  unfold Node.fileAt
  rw [Node.walk]
  cases findEntry c es <;> simp

theorem Node.fileAt_empty_dir (t : List Name) : (Node.dir []).fileAt t = none := by
  cases t with
  | nil => exact Node.fileAt_dir_nil _
  | cons c cs => simp [Node.fileAt_dir_cons, findEntry]

/-- Storing a file changes the content at that location and at no other. -/
theorem Node.fileAt_setFile (p : List Name) :
    ∀ (root root1 : Node) (d : List Byte), root.setFile p d = .ok root1 →
      ∀ q, root1.fileAt q = if q = p then some d else root.fileAt q := by
  induction p with
  | nil =>
    intro root root1 d h q
    cases root with
    | file d0 =>
      simp [Node.setFile] at h
      subst h
      cases q with
      | nil => simp [Node.fileAt_file_nil]
      | cons c cs => simp [Node.fileAt_file_cons]
    | dir es => simp [Node.setFile] at h
  | cons c cs ih =>
    intro root root1 d h q
    cases root with
    | file d0 => simp [Node.setFile] at h
    | dir es =>
      cases cs with
      | nil =>
        rw [Node.setFile] at h
        have hroot : root1 = .dir (putEntry c (.file d) es) ∧
            (∀ es1, findEntry c es ≠ some (.dir es1)) := by
          split at h
          · simp at h
          · rename_i hnd
            simp at h
            exact ⟨h.symm, fun es1 he => hnd es1 he⟩
        obtain ⟨hr, hnd⟩ := hroot
        subst hr
        cases q with
        | nil => simp [Node.fileAt_dir_nil]
        | cons c1 qs =>
          rw [Node.fileAt_dir_cons, Node.fileAt_dir_cons]
          by_cases hc : c1 = c
          · subst hc
            rw [findEntry_putEntry_self]
            cases qs with
            | nil => simp [Node.fileAt_file_nil]
            | cons c2 qs2 =>
              simp only [Node.fileAt_file_cons]
              have : ¬ (c1 :: c2 :: qs2 = [c1]) := by simp
              rw [if_neg this]
              cases hf : findEntry c1 es with
              | none => rfl
              | some child =>
                cases child with
                | file d1 => simp [Node.fileAt_file_cons]
                | dir es1 => exact absurd hf (hnd es1)
          · rw [findEntry_putEntry_other _ _ _ _ hc]
            have : ¬ (c1 :: qs = [c]) := by
              intro hh
              simp at hh
              exact hc hh.1
            rw [if_neg this]
      | cons c2 cs2 =>
        rw [Node.setFile] at h
        cases hf : findEntry c es with
        | none => simp [hf] at h
        | some child =>
          simp only [hf] at h
          cases hs : child.setFile (c2 :: cs2) d with
          | error e => simp [hs] at h
          | ok child1 =>
            simp only [hs] at h
            simp at h
            subst h
            have hrec := ih child child1 d hs
            cases q with
            | nil => simp [Node.fileAt_dir_nil]
            | cons c1 qs =>
              rw [Node.fileAt_dir_cons, Node.fileAt_dir_cons]
              by_cases hc : c1 = c
              · subst hc
                rw [findEntry_putEntry_self, hf]
                simp only [hrec qs]
                simp
              · rw [findEntry_putEntry_other _ _ _ _ hc]
                have : ¬ (c1 :: qs = c :: c2 :: cs2) := by
                  intro hh
                  simp at hh
                  exact hc hh.1
                rw [if_neg this]

/-- Storing a file succeeds at a location that holds a regular file. -/
theorem Node.setFile_of_file (p : List Name) :
    ∀ (root : Node) (d0 d : List Byte), root.walk p = .ok (.file d0) →
      ∃ root1, root.setFile p d = .ok root1 := by
  induction p with
  | nil =>
    intro root d0 d h
    simp [Node.walk] at h
    subst h
    exact ⟨_, rfl⟩
  | cons c cs ih =>
    intro root d0 d h
    cases root with
    | file d1 => simp [Node.walk] at h
    | dir es =>
      rw [Node.walk] at h
      cases hf : findEntry c es with
      | none => simp [hf] at h
      | some child =>
        simp only [hf] at h
        cases cs with
        | nil =>
          simp [Node.walk] at h
          subst h
          exact ⟨.dir (putEntry c (.file d) es), by simp [Node.setFile, hf]⟩
        | cons c2 cs2 =>
          obtain ⟨child1, hc⟩ := ih child d0 d h
          exact ⟨.dir (putEntry c child1 es), by simp [Node.setFile, hf, hc]⟩

/-- Creating directories neither creates, changes nor removes a regular file. -/
theorem Node.fileAt_mkdirAll (p : List Name) :
    ∀ (root root1 : Node), root.mkdirAll p = .ok root1 → ∀ q, root1.fileAt q = root.fileAt q := by
  induction p with
  | nil =>
    intro root root1 h q
    cases root with
    | file d => simp [Node.mkdirAll] at h
    | dir es =>
      simp [Node.mkdirAll] at h
      subst h
      rfl
  | cons c cs ih =>
    intro root root1 h q
    cases root with
    | file d => simp [Node.mkdirAll] at h
    | dir es =>
      rw [Node.mkdirAll] at h
      cases hf : findEntry c es with
      | none =>
        simp only [hf] at h
        cases hm : (Node.dir []).mkdirAll cs with
        | error e => simp [hm] at h
        | ok child1 =>
          simp only [hm] at h
          simp at h
          subst h
          cases q with
          | nil => simp [Node.fileAt_dir_nil]
          | cons c1 qs =>
            rw [Node.fileAt_dir_cons, Node.fileAt_dir_cons]
            by_cases hc : c1 = c
            · subst hc
              rw [findEntry_putEntry_self, hf]
              simp only [ih _ _ hm qs, Node.fileAt_empty_dir]
            · rw [findEntry_putEntry_other _ _ _ _ hc]
      | some child =>
        simp only [hf] at h
        cases hm : child.mkdirAll cs with
        | error e => simp [hm] at h
        | ok child1 =>
          simp only [hm] at h
          simp at h
          subst h
          cases q with
          | nil => simp [Node.fileAt_dir_nil]
          | cons c1 qs =>
            rw [Node.fileAt_dir_cons, Node.fileAt_dir_cons]
            by_cases hc : c1 = c
            · subst hc
              rw [findEntry_putEntry_self, hf]
              simp only [ih _ _ hm qs]
            · rw [findEntry_putEntry_other _ _ _ _ hc]

/-! ## Degenerate paths (C1) -/

/-- C1: whenever `filepath.Clean(P)` is `""`, `"."` or `".."` (in particular for the empty
`P`), each of `Connector.Stat`, `Connector.MkdirAll`, `Connector.Open`,
`Connector.OpenFile`, `Connector.List` and `FileObjectConnector.FoFileOpen` returns the
error "Invalid Path", whatever the root, and leaves the machine state as it was: the
filesystem is unchanged and no native call was issued. -/
theorem C1_degenerate_path_is_invalid (R P : String) (flag perm : Nat) (limit : Int) (st : OS)
    (h : Clean P = "" ∨ Clean P = "." ∨ Clean P = "..") :
    (Connector.mk ⟨R⟩).Stat P st = (.error (.New "Invalid Path"), st) ∧
    (Connector.mk ⟨R⟩).MkdirAll P perm st = (some (.New "Invalid Path"), st) ∧
    (Connector.mk ⟨R⟩).Open P st = (.error (.New "Invalid Path"), st) ∧
    (Connector.mk ⟨R⟩).OpenFile P flag perm st = (.error (.New "Invalid Path"), st) ∧
    (Connector.mk ⟨R⟩).List P limit st = (.error (.New "Invalid Path"), st) ∧
    (FileObjectConnector.mk ⟨R⟩).FoFileOpen P st = (.error (.New "Invalid Path"), st) := by
  refine ⟨?_, ?_, ?_, ?_, ?_, ?_⟩
  · simp only [Connector.Stat, if_pos h]
  · simp only [Connector.MkdirAll, if_pos h]
  · simp only [Connector.Open, if_pos h]
  · simp only [Connector.OpenFile, if_pos h]
  · simp only [Connector.List, if_pos h]
  · simp only [FileObjectConnector.FoFileOpen, if_pos h]

/-- C1 at the empty path, on the root `/data`. -/
theorem C1_degenerate_path_is_invalid_witness :
    (Clean "" = "" ∨ Clean "" = "." ∨ Clean "" = "..") ∧
    (demoConn.Stat "" demoOS = (.error (.New "Invalid Path"), demoOS) ∧
     demoConn.MkdirAll "" 0o755 demoOS = (some (.New "Invalid Path"), demoOS) ∧
     demoConn.Open "" demoOS = (.error (.New "Invalid Path"), demoOS) ∧
     demoConn.OpenFile "" O_RDWR 0o644 demoOS = (.error (.New "Invalid Path"), demoOS) ∧
     demoConn.List "" 2 demoOS = (.error (.New "Invalid Path"), demoOS) ∧
     demoFoConn.FoFileOpen "" demoOS = (.error (.New "Invalid Path"), demoOS)) :=
  ⟨by decide, C1_degenerate_path_is_invalid "/data" "" O_RDWR 0o644 2 demoOS (by decide)⟩

/-! ## Construction (C8) -/

theorem constructor_Open_eq (copts : ConnOptions) (st : OS) :
    (Open copts st).1 =
      match copts.Get "data_dir" with
      | none => .error (.New "No Storage Dir Found")
      | some v =>
        match st.root.walk (st.resolve (Clean v)) with
        | .error _ => .error (.New ("Storage Dir (" ++ Clean v ++ ") Not Found"))
        | .ok (.file _) => .error (.New ("Storage Dir (" ++ Clean v ++ ") Is Not Dir"))
        | .ok (.dir _) => .ok { opts := { DataDir := Clean v } } := by
  unfold Open
  cases copts.Get "data_dir" with
  | none => rfl
  | some v =>
    simp only [os.Stat]
    cases hw : st.root.walk (st.resolve (Clean v)) with
    | error e => rfl
    | ok n =>
      cases n with
      | file d => simp [FileInfo.ofNode]
      | dir es => simp [FileInfo.ofNode]

theorem FileObjectConnect_eq (copts : ConnOptions) (st : OS) :
    (FileObjectConnect copts st).1 =
      match copts.Get "data_dir" with
      | none => .error (.New "No Storage Dir Found")
      | some v =>
        match st.root.walk (st.resolve (Clean v)) with
        | .error _ => .error (.New ("Storage Dir (" ++ Clean v ++ ") Not Found"))
        | .ok (.file _) => .error (.New ("Storage Dir (" ++ Clean v ++ ") Is Not Dir"))
        | .ok (.dir _) => .ok { opts := { DataDir := Clean v } } := by
  unfold FileObjectConnect
  cases copts.Get "data_dir" with
  | none => rfl
  | some v =>
    simp only [os.Stat]
    cases hw : st.root.walk (st.resolve (Clean v)) with
    | error e => rfl
    | ok n =>
      cases n with
      | file d => simp [FileInfo.ofNode]
      | dir es => simp [FileInfo.ofNode]

/-- C8: both constructors succeed exactly when the options hold a `data_dir` item whose
cleaned value names an existing directory. They fail with "No Storage Dir Found" when the
item is absent, with "Storage Dir (...) Not Found" when the cleaned path names nothing,
and with "Storage Dir (...) Is Not Dir" when it names a regular file. On success the stored
root is `filepath.Clean` of the configured value. -/
theorem C8_construction (copts : ConnOptions) (st : OS) :
    (((∃ conn, (Open copts st).1 = .ok conn) ↔
        ∃ v, copts.Get "data_dir" = some v ∧
          (st.root.dirAt (st.resolve (Clean v))).isSome = true) ∧
      (copts.Get "data_dir" = none →
        (Open copts st).1 = .error (.New "No Storage Dir Found")) ∧
      (∀ v, copts.Get "data_dir" = some v →
        st.root.existsAt (st.resolve (Clean v)) = false →
        (Open copts st).1 = .error (.New ("Storage Dir (" ++ Clean v ++ ") Not Found"))) ∧
      (∀ v, copts.Get "data_dir" = some v →
        st.root.existsAt (st.resolve (Clean v)) = true →
        (st.root.dirAt (st.resolve (Clean v))).isSome = false →
        (Open copts st).1 = .error (.New ("Storage Dir (" ++ Clean v ++ ") Is Not Dir"))) ∧
      (∀ conn, (Open copts st).1 = .ok conn →
        ∃ v, copts.Get "data_dir" = some v ∧ conn.opts.DataDir = Clean v)) ∧
    (((∃ conn, (FileObjectConnect copts st).1 = .ok conn) ↔
        ∃ v, copts.Get "data_dir" = some v ∧
          (st.root.dirAt (st.resolve (Clean v))).isSome = true) ∧
      (copts.Get "data_dir" = none →
        (FileObjectConnect copts st).1 = .error (.New "No Storage Dir Found")) ∧
      (∀ v, copts.Get "data_dir" = some v →
        st.root.existsAt (st.resolve (Clean v)) = false →
        (FileObjectConnect copts st).1 =
          .error (.New ("Storage Dir (" ++ Clean v ++ ") Not Found"))) ∧
      (∀ v, copts.Get "data_dir" = some v →
        st.root.existsAt (st.resolve (Clean v)) = true →
        (st.root.dirAt (st.resolve (Clean v))).isSome = false →
        (FileObjectConnect copts st).1 =
          .error (.New ("Storage Dir (" ++ Clean v ++ ") Is Not Dir"))) ∧
      (∀ conn, (FileObjectConnect copts st).1 = .ok conn →
        ∃ v, copts.Get "data_dir" = some v ∧ conn.opts.DataDir = Clean v)) := by
  constructor
  · rw [constructor_Open_eq]
    cases hg : copts.Get "data_dir" with
    | none => simp
    | some v =>
      simp only [Node.dirAt, Node.existsAt]
      cases hw : st.root.walk (st.resolve (Clean v)) with
      | error e => simp [hw]
      | ok n =>
        cases n with
        | file d => simp [hw]
        | dir es => simp [hw]
  · rw [FileObjectConnect_eq]
    cases hg : copts.Get "data_dir" with
    | none => simp
    | some v =>
      simp only [Node.dirAt, Node.existsAt]
      cases hw : st.root.walk (st.resolve (Clean v)) with
      | error e => simp [hw]
      | ok n =>
        cases n with
        | file d => simp [hw]
        | dir es => simp [hw]

/-! ## Writing through a handle (C6) -/

theorem writeBytes_zero (c b : List Byte) : writeBytes c 0 b = b ++ c.drop b.length := by
  simp [writeBytes]

theorem FsObject.writableNoAppend_iff (fo : FsObject) (st : OS) (c : List Byte) :
    fo.writableNoAppend st c = true ↔
      fo.fp.closed = false ∧ plainFlags fo.fp.flag = true ∧ fo.fp.canWrite = true ∧
        fo.fp.appendMode = false ∧ st.root.fileAt fo.fp.target = some c := by
  simp [FsObject.writableNoAppend, and_assoc]

theorem FsObject.Write_spec (fo : FsObject) (st : OS) (c b : List Byte)
    (hw : fo.writableNoAppend st c = true) :
    ∃ st1, fo.Write b st = (.ok b.length, fo, st1) ∧
      fo.writableNoAppend st1 (b ++ c.drop b.length) = true := by
  simp only [FsObject.writableNoAppend_iff]
  obtain ⟨hcl, hpl, hcw, hap, hf⟩ := (FsObject.writableNoAppend_iff fo st c).1 hw
  have hwalk := (Node.fileAt_iff _ _ _).1 hf
  by_cases hb : b = []
  · subst hb
    refine ⟨st, ?_, hcl, hpl, hcw, hap, by simpa using hf⟩
    simp [FsObject.Write, File.WriteAt, hcl, hap]
  · obtain ⟨root1, hset⟩ := Node.setFile_of_file _ _ c (writeBytes c 0 b) hwalk
    refine ⟨{ st.log "pwrite" fo.fp.name with root := root1 }, ?_, hcl, hpl, hcw, hap, ?_⟩
    · simp [FsObject.Write, File.WriteAt, hcl, hap, hb, hcw, hwalk, hset]
    · have := Node.fileAt_setFile _ _ _ _ hset fo.fp.target
      simpa [writeBytes_zero] using this

/-- C6, amended. `FsObject.Write` writes at offset 0, wherever the cursor is. For every
handle on a regular file opened with `O_WRONLY` or `O_RDWR` and no flag other than
`O_CREATE`, `O_EXCL` and `O_TRUNC` (so without `O_APPEND`, and without the flags that change
how the kernel writes, such as `O_DIRECT` or `O_PATH`), and payloads `A` then `B` with
`len(B) <= len(A)`: both writes succeed; the handle, and so its cursor, is the same after
each write; afterwards the bytes `[0, len(B))` of the file are `B` and the bytes
`[len(B), len(A))` are `A[len(B):]`; on an initially empty file the content is exactly
`B ++ A[len(B):]`, of length `len(A)`. -/
theorem C6_write_overwrites_from_start (fo : FsObject) (st : OS) (c A B : List Byte)
    (hw : fo.writableNoAppend st c = true) (hlen : B.length ≤ A.length) :
    (fo.Write A st).1 = .ok A.length ∧ (fo.Write A st).2.1 = fo ∧
    ((fo.Write A st).2.1.Write B (fo.Write A st).2.2).1 = .ok B.length ∧
    ((fo.Write A st).2.1.Write B (fo.Write A st).2.2).2.1 = fo ∧
    ∃ c2, ((fo.Write A st).2.1.Write B (fo.Write A st).2.2).2.2.root.fileAt fo.fp.target
        = some c2 ∧
      c2.take B.length = B ∧
      (c2.drop B.length).take (A.length - B.length) = A.drop B.length ∧
      (c = [] → c2 = B ++ A.drop B.length ∧ c2.length = A.length) := by
  obtain ⟨st1, h1, hw1⟩ := FsObject.Write_spec fo st c A hw
  obtain ⟨st2, h2, hw2⟩ := FsObject.Write_spec fo st1 _ B hw1
  rw [h1]
  simp only
  rw [h2]
  refine ⟨by trivial, by trivial, by trivial, by trivial, _,
    ((FsObject.writableNoAppend_iff _ _ _).1 hw2).2.2.2.2, ?_, ?_, ?_⟩
  · simp
  · rw [List.drop_left, List.drop_append_of_le_length hlen]
    apply List.take_left'
    simp
  · intro hc
    subst hc
    rw [List.drop_append_of_le_length hlen]
    simp
    omega

/-! ## The native path of a caller path -/

theorem cleanChars_rooted_buf (p : List Char) (hr : p.head? = some '/') :
    ∃ dd1, CleanBuf true dd1 (cleanChars p) := by
  unfold cleanChars
  rw [if_pos hr]
  have hb : CleanBuf true 1 ['/'] := CleanBuf.base _ rfl (fun _ => rfl) (by simp)
  exact (cleanLoop_spec true [] (fun _ => rfl) p.length p.tail ['/'] 1
    (by simp) hb).2

theorem CleanBuf.resolve_rooted {dd : Nat} {out : List Char} (h : CleanBuf true dd out) :
    ∃ ns : List Name, ∀ s, resolveFrom s out = s ++ ns := by
  induction h with
  | base out _ hroot _ =>
    refine ⟨[], fun s => ?_⟩
    rw [hroot rfl]
    simp [resolveFrom, splitSlash, walkStep]
  | push out0 elem h0 hne hdot hdotdot hslash ih =>
    obtain ⟨ns, hns⟩ := ih
    refine ⟨ns ++ [String.mk elem], fun s => ?_⟩
    rw [h0.resolve_push s elem hslash, hns, walkStep_real _ _ hne hdot hdotdot]
    simp

theorem resolveFrom_Clean_Clean (p : String) (s : List Name) :
    resolveFrom s (Clean (Clean p)).data = resolveFrom s (Clean p).data := by
  by_cases hr : isRooted (Clean p) = true
  · have hshape : ∀ q : String, isRooted q = true →
        ∃ ns : List Name, ∀ s, resolveFrom s (Clean q).data = s ++ ns := by
      intro q hq
      have hq1 : q.data.head? = some '/' := by simpa [isRooted] using hq
      obtain ⟨dd1, hb⟩ := cleanChars_rooted_buf q.data hq1
      have hne : ¬ (q.data = [] ∨ cleanChars q.data = []) := by
        intro h
        rcases h with h | h
        · rw [h] at hq1; simp at hq1
        · have := hb.head_rooted
          rw [h] at this
          simp at this
      rw [Clean_data, if_neg hne]
      exact hb.resolve_rooted
    have hp : isRooted p = true := by rw [← isRooted_Clean]; exact hr
    obtain ⟨ns1, h1⟩ := hshape p hp
    obtain ⟨ns2, h2⟩ := hshape (Clean p) hr
    have h0 := resolveFrom_Clean (Clean p) [] (fun _ => rfl)
    rw [h1, h2] at h0
    rw [h1, h2]
    simp at h0
    rw [h0]
  · exact resolveFrom_Clean (Clean p) s (fun h => absurd h hr)

theorem isRooted_join (R X : String) :
    isRooted (R ++ "/" ++ X) = (R.data.head? = some '/' ∨ R.data = []) := by
  unfold isRooted
  cases hR : R.data with
  | nil => simp [String.data_append, hR]
  | cons c t => simp [String.data_append, hR]

theorem OS.resolve_join (st : OS) (R X : String) :
    st.resolve (R ++ "/" ++ X) =
      resolveFrom (resolveFrom (if isRooted (R ++ "/") then [] else st.cwd) R.data) X.data := by
  have h1 : isRooted (R ++ "/" ++ X) = isRooted (R ++ "/") := by
    have a := isRooted_join R X
    have b := isRooted_join R ""
    simp only [String.append_empty] at b
    cases h : isRooted (R ++ "/" ++ X) <;> cases h2 : isRooted (R ++ "/") <;> simp_all
  unfold OS.resolve
  rw [h1]
  have : (R ++ "/" ++ X).data = R.data ++ '/' :: X.data := by
    simp [String.data_append]
  rw [this, resolveFrom_append_slash]

theorem OS.resolve_join_congr (st : OS) (R X Y : String)
    (h : ∀ s, resolveFrom s X.data = resolveFrom s Y.data) :
    st.resolve (R ++ "/" ++ X) = st.resolve (R ++ "/" ++ Y) := by
  rw [OS.resolve_join, OS.resolve_join, h]

/-- The path the connector hands to the filesystem, `R + "/" + Clean(path)` with `path`
already cleaned once, names the same location as `R + "/" + Clean(P)`. -/
theorem OS.resolve_native (st : OS) (R P : String) :
    st.resolve (R ++ "/" ++ Clean (Clean P)) = st.resolve (R ++ "/" ++ Clean P) :=
  OS.resolve_join_congr st R _ _ (fun s => resolveFrom_Clean_Clean P s)

/-- For a relative caller path, the native path names the same location as `R/P`. -/
theorem OS.resolve_native_relative (st : OS) (R P : String) (hrel : isRooted P = false) :
    st.resolve (R ++ "/" ++ Clean (Clean P)) = st.resolve (R ++ "/" ++ P) := by
  rw [OS.resolve_native]
  exact OS.resolve_join_congr st R _ _
    (fun s => resolveFrom_Clean P s (fun h => by rw [hrel] at h; cases h))

/-! ## Opening and listing (C7, C9) -/

theorem os.Open_eq (name : String) (st : OS) :
    os.Open name st =
      match st.root.walk (st.resolve name) with
      | .ok _ =>
        (.ok { name := name, target := st.resolve name, flag := O_RDONLY, offset := 0,
               closed := false }, st.log "open" name)
      | .error e => (.error (.PathError "open" name e), st.log "open" name) := by
  have h1 : hasFlag O_RDONLY O_CREATE = false := by decide
  have h2 : hasFlag O_RDONLY O_TRUNC = false := by decide
  have h3 : (accMode O_RDONLY != O_RDONLY) = false := by decide
  unfold os.Open os.OpenFile
  cases hw : st.root.walk (st.resolve name) with
  | error e => simp [h1, hw]
  | ok n =>
    cases n with
    | file d => simp [h1, h2, hw]
    | dir es => simp [h1, h2, h3, hw]

theorem foldl_append_singleton (rs : List FileInfo) :
    ∀ acc : List FileInfo, rs.foldl (fun ls v => ls ++ [v]) acc = acc ++ rs := by
  induction rs with
  | nil => intro acc; simp
  | cons r rs ih => intro acc; simp [ih]

theorem Connector_List_eq (R P : String) (limit : Int) (st : OS) (es : List (Name × Node))
    (hvalid : ¬ (Clean P = "" ∨ Clean P = "." ∨ Clean P = ".."))
    (hdir : st.root.dirAt (st.resolve (R ++ "/" ++ Clean P)) = some es) :
    ((Connector.mk ⟨R⟩).List P limit st).1 =
      if 0 < limit then
        if entryInfos es = [] then .error .EOF else .ok ((entryInfos es).take limit.toNat)
      else .ok (entryInfos es) := by
  have hwalk : st.root.walk (st.resolve (R ++ "/" ++ Clean (Clean P))) = .ok (.dir es) := by
    rw [OS.resolve_native]
    unfold Node.dirAt at hdir
    split at hdir
    · rename_i es1 h
      simp at hdir
      rw [h, hdir]
    · simp at hdir
  simp only [Connector.List, if_neg hvalid, os.Open_eq, hwalk, File.Readdir]
  have hroot : (st.log "open" (R ++ "/" ++ Clean (Clean P))).root = st.root := rfl
  simp only [hroot, hwalk, List.drop_zero]
  by_cases hl : 0 < limit
  · simp only [if_pos hl]
    by_cases he : List.map (fun e => FileInfo.ofNode e.1 e.2) es = []
    · simp [he, entryInfos]
    · simp [he, entryInfos, foldl_append_singleton]
  · simp [hl, entryInfos, foldl_append_singleton]

/-- C7, amended. For a valid path naming a directory with `n` entries: `Connector.List`
with a limit `k <= 0` succeeds and returns all `n` entries; with `k > 0` on a directory
that is not empty it succeeds and returns exactly `min(k, n)` entries, the first ones in
directory order; every returned entry is an entry of that directory. With `k > 0` on an
empty directory it fails with `io.EOF`. -/
theorem C7_list_limit (R P : String) (limit : Int) (st : OS) (es : List (Name × Node))
    (hvalid : ¬ (Clean P = "" ∨ Clean P = "." ∨ Clean P = ".."))
    (hdir : st.root.dirAt (st.resolve (R ++ "/" ++ Clean P)) = some es) :
    (limit ≤ 0 → ((Connector.mk ⟨R⟩).List P limit st).1 = .ok (entryInfos es)) ∧
    (0 < limit → es ≠ [] →
      ∃ ls, ((Connector.mk ⟨R⟩).List P limit st).1 = .ok ls ∧
        ls = (entryInfos es).take limit.toNat ∧
        ls.length = min limit.toNat es.length ∧ ∀ x ∈ ls, x ∈ entryInfos es) ∧
    (0 < limit → es = [] → ((Connector.mk ⟨R⟩).List P limit st).1 = .error .EOF) := by
  rw [Connector_List_eq R P limit st es hvalid hdir]
  refine ⟨?_, ?_, ?_⟩
  · intro h
    have : ¬ 0 < limit := by omega
    simp [this]
  · intro h hne
    have he : entryInfos es ≠ [] := by simpa [entryInfos] using hne
    refine ⟨_, by simp [h, he], rfl, by simp [entryInfos], ?_⟩
    intro x hx
    exact List.mem_of_mem_take hx
  · intro h he
    subst he
    simp [h, entryInfos]

theorem succeeded_iff {α : Type} (r : Except Error α) : succeeded r = true ↔ ∃ a, r = .ok a := by
  cases r with
  | ok a => simp [succeeded]
  | error e => simp [succeeded]

theorem os.Stat_succeeded (name : String) (st : OS) :
    succeeded (os.Stat name st).1 = st.root.existsAt (st.resolve name) := by
  unfold os.Stat Node.existsAt
  cases hw : st.root.walk (st.resolve name) with
  | error e => simp [succeeded]
  | ok n => simp [succeeded]

theorem os.Open_succeeded (name : String) (st : OS) :
    succeeded (os.Open name st).1 = st.root.existsAt (st.resolve name) := by
  rw [os.Open_eq]
  unfold Node.existsAt
  cases hw : st.root.walk (st.resolve name) with
  | error e => simp [succeeded]
  | ok n => simp [succeeded]

theorem os.OpenFile_succeeded_nocreate (name : String) (flag perm : Nat) (st : OS)
    (hc : hasFlag flag O_CREATE = false)
    (hd : (st.root.dirAt (st.resolve name)).isSome = true →
      accMode flag = O_RDONLY ∧ hasFlag flag O_TRUNC = false) :
    succeeded (os.OpenFile name flag perm st).1 = st.root.existsAt (st.resolve name) := by
  unfold os.OpenFile Node.existsAt
  cases hw : st.root.walk (st.resolve name) with
  | error e => simp [succeeded, hc, hw]
  | ok n =>
    cases n with
    | file d =>
      by_cases ht : hasFlag flag O_TRUNC = true
      · obtain ⟨root1, hs⟩ := Node.setFile_of_file _ _ d [] hw
        simp [succeeded, hc, hw, ht, hs]
      · simp [succeeded, hc, hw, ht]
    | dir es =>
      have := hd (by simp [Node.dirAt, hw])
      simp [succeeded, hc, hw, this.1, this.2]

theorem properDescendant_valid (st : OS) (R P : String) (hrel : isRooted P = false)
    (hdesc : properDescendant (st.resolve (R ++ "/" ++ P)) (st.resolve R) = true) :
    ¬ (Clean P = "" ∨ Clean P = "." ∨ Clean P = "..") := by
  intro h
  obtain ⟨x, hxl, hd⟩ : ∃ x : List Name, 0 < x.length ∧
      st.resolve (R ++ "/" ++ P) = st.resolve R ++ x := by
    simp only [properDescendant, Bool.and_eq_true, decide_eq_true_eq, beq_iff_eq] at hdesc
    refine ⟨(st.resolve (R ++ "/" ++ P)).drop (st.resolve R).length, ?_, ?_⟩
    · simp; omega
    · conv_lhs => rw [← List.take_append_drop (st.resolve R).length (st.resolve (R ++ "/" ++ P))]
      rw [hdesc.2]
  have hcl := resolveFrom_Clean P
    (resolveFrom (if isRooted (R ++ "/") then [] else st.cwd) R.data)
    (fun hh => by rw [hrel] at hh; cases hh)
  rw [OS.resolve_join, ← hcl] at hd
  have hlen : ∀ X : List Name, (resolveFrom X (Clean P).data).length ≤ X.length := by
    intro X
    rcases h with h | h | h <;> rw [h] <;> simp [resolveFrom, splitSlash, walkStep]
  have hl := hlen (resolveFrom (if isRooted (R ++ "/") then [] else st.cwd) R.data)
  cases hR : R.data with
  | nil =>
    rw [hR] at hl
    have hroot : isRooted (R ++ "/") = true := by
      rw [show R ++ "/" = R ++ "/" ++ "" by simp, isRooted_join]; simp [hR]
    rw [hroot] at hl hd
    simp [resolveFrom_nil] at hl
    rw [hR] at hd
    simp only [if_true, resolveFrom_nil] at hd
    rw [hl] at hd
    have := congrArg List.length hd
    simp at this
    omega
  | cons c t =>
    have hroot : isRooted (R ++ "/") = isRooted R := by
      unfold isRooted
      simp [String.data_append, hR]
    have hres : st.resolve R =
        resolveFrom (if isRooted (R ++ "/") then [] else st.cwd) R.data := by
      unfold OS.resolve
      rw [hroot]
    rw [← hres] at hd hl
    have := congrArg List.length hd
    simp at this
    omega

/-- C9, amended. For a configured root `R = Clean(v)` and a relative path `P` such that
`R/P` normalizes to a proper descendant of `R`: `Connector.Open(P)` and
`Connector.Stat(P)` succeed if and only if the native file `R/Clean(P)`, which is `R/P` in
normal form, exists before the call; `Connector.OpenFile(P, flag, perm)` succeeds if and
only if that file exists, provided `flag` is an access mode with at most `O_EXCL`,
`O_TRUNC` and `O_APPEND` (no `O_CREATE` and no other flag of `open(2)`) and, when the file
is a directory, asks for read-only access without `O_TRUNC`. -/
theorem C9_open_stat_iff_exists (v P : String) (flag perm : Nat) (st : OS)
    (hrel : isRooted P = false)
    (hdesc : properDescendant (st.resolve (Clean v ++ "/" ++ P)) (st.resolve (Clean v))
      = true) :
    (succeeded ((Connector.mk ⟨Clean v⟩).Open P st).1 = true ↔
        st.root.existsAt (st.resolve (Clean v ++ "/" ++ Clean P)) = true) ∧
    (succeeded ((Connector.mk ⟨Clean v⟩).Stat P st).1 = true ↔
        st.root.existsAt (st.resolve (Clean v ++ "/" ++ Clean P)) = true) ∧
    (plainFlags flag = true → hasFlag flag O_CREATE = false →
      ((st.root.dirAt (st.resolve (Clean v ++ "/" ++ Clean P))).isSome = true →
        accMode flag = O_RDONLY ∧ hasFlag flag O_TRUNC = false) →
      (succeeded ((Connector.mk ⟨Clean v⟩).OpenFile P flag perm st).1 = true ↔
        st.root.existsAt (st.resolve (Clean v ++ "/" ++ Clean P)) = true)) := by
  have hvalid := properDescendant_valid st (Clean v) P hrel hdesc
  have hnat := OS.resolve_native st (Clean v) P
  refine ⟨?_, ?_, ?_⟩
  · have h := os.Open_succeeded (Clean v ++ "/" ++ Clean (Clean P)) st
    rw [hnat] at h
    rw [← h]
    simp only [Connector.Open, if_neg hvalid]
    cases os.Open (Clean v ++ "/" ++ Clean (Clean P)) st with
    | mk r st1 => cases r <;> simp [succeeded]
  · have h := os.Stat_succeeded (Clean v ++ "/" ++ Clean (Clean P)) st
    rw [hnat] at h
    rw [← h]
    simp only [Connector.Stat, if_neg hvalid]
    cases os.Stat (Clean v ++ "/" ++ Clean (Clean P)) st with
    | mk r st1 => cases r <;> simp [succeeded]
  · intro _ hc hd
    have h := os.OpenFile_succeeded_nocreate (Clean v ++ "/" ++ Clean (Clean P)) flag perm st hc
      (by rw [hnat]; exact hd)
    rw [hnat] at h
    rw [← h]
    simp only [Connector.OpenFile, if_neg hvalid]
    cases os.OpenFile (Clean v ++ "/" ++ Clean (Clean P)) flag perm st with
    | mk r st1 => cases r <;> simp [succeeded]

/-! ## Copy-in: the steps of `FoFilePut` -/

@[simp] theorem OS.log_root (st : OS) (op name : String) : (st.log op name).root = st.root :=
  rfl

@[simp] theorem OS.log_cwd (st : OS) (op name : String) : (st.log op name).cwd = st.cwd :=
  rfl

theorem OS.resolve_of_cwd {st st1 : OS} (h : st1.cwd = st.cwd) (p : String) :
    st1.resolve p = st.resolve p := by
  unfold OS.resolve
  rw [h]

theorem File.Seek_start (f : File) (st : OS) (d : List Byte) (hcl : f.closed = false)
    (hf : st.root.fileAt f.target = some d) :
    f.Seek 0 0 st = (.ok 0, { f with offset := 0 }, st.log "seek" f.name) := by
  have hw := (Node.fileAt_iff _ _ _).1 hf
  simp [File.Seek, hcl, hw]

theorem File.Truncate_zero (f : File) (st : OS) (d : List Byte) (hcl : f.closed = false)
    (hcw : f.canWrite = true) (hf : st.root.fileAt f.target = some d) :
    ∃ root1, st.root.setFile f.target [] = .ok root1 ∧
      f.Truncate 0 st = (none, { st.log "ftruncate" f.name with root := root1 }) := by
  have hw := (Node.fileAt_iff _ _ _).1 hf
  obtain ⟨root1, hs⟩ := Node.setFile_of_file _ _ d [] hw
  refine ⟨root1, hs, ?_⟩
  simp [File.Truncate, hcl, hcw, hw, hs]

theorem File.Write_start (f : File) (st : OS) (b : List Byte) (hcl : f.closed = false)
    (hcw : f.canWrite = true) (hap : f.appendMode = false) (hoff : f.offset = 0)
    (hb : b ≠ []) (hf : st.root.fileAt f.target = some []) :
    ∃ root1, st.root.setFile f.target b = .ok root1 ∧
      f.Write b st = (.ok b.length, { f with offset := b.length },
        { st.log "write" f.name with root := root1 }) := by
  have hw := (Node.fileAt_iff _ _ _).1 hf
  obtain ⟨root1, hs⟩ := Node.setFile_of_file _ _ [] b hw
  refine ⟨root1, hs, ?_⟩
  have hwb : writeBytes [] 0 b = b := by simp [writeBytes]
  simp [File.Write, hcl, hcw, hap, hoff, hw, hb, hwb, hs]

theorem io.Copy_into_empty (dst src : File) (st : OS) (data : List Byte)
    (hscl : src.closed = false) (hsr : src.canRead = true) (hsoff : src.offset = 0)
    (hsf : st.root.fileAt src.target = some data) (hdata : data ≠ [])
    (hcl : dst.closed = false) (hcw : dst.canWrite = true) (hap : dst.appendMode = false)
    (hoff : dst.offset = 0) (hdf : st.root.fileAt dst.target = some []) :
    ∃ root1, st.root.setFile dst.target data = .ok root1 ∧
      io.Copy dst src st = (.ok data.length, { dst with offset := data.length },
        { src with offset := src.offset + data.length },
        { (st.log "read" src.name).log "write" dst.name with root := root1 }) := by
  have hw := (Node.fileAt_iff _ _ _).1 hsf
  obtain ⟨root1, hs, hwr⟩ := File.Write_start dst (st.log "read" src.name) data hcl hcw hap hoff
    hdata hdf
  refine ⟨root1, hs, ?_⟩
  simp only [io.Copy, hscl, hsr, hw, hsoff, List.drop_zero]
  simp only [Bool.false_eq_true, if_false, Bool.not_true, if_neg hdata]
  rw [hwr]

theorem foFilePutStream_spec (fpdst fpsrc : File) (st : OS) (data d2 : List Byte)
    (hscl : fpsrc.closed = false) (hsr : fpsrc.canRead = true) (hsoff : fpsrc.offset = 0)
    (hsf : st.root.fileAt fpsrc.target = some data) (hdata : data ≠ [])
    (hcl : fpdst.closed = false) (hcw : fpdst.canWrite = true)
    (hap : fpdst.appendMode = false) (hdf : st.root.fileAt fpdst.target = some d2)
    (hne : fpsrc.target ≠ fpdst.target) :
    (foFilePutStream fpdst fpsrc st).1 = newResult .ResultOK none ∧
      (foFilePutStream fpdst fpsrc st).2.2.root.fileAt fpdst.target = some data := by
  have hseek := File.Seek_start fpdst st d2 hcl hdf
  obtain ⟨root1, hs1, htr⟩ := File.Truncate_zero { fpdst with offset := 0 }
    (st.log "seek" fpdst.name) d2 hcl hcw hdf
  have hf1 := Node.fileAt_setFile _ _ _ _ hs1
  obtain ⟨root2, hs2, hcp⟩ := io.Copy_into_empty { fpdst with offset := 0 } fpsrc
    { (st.log "seek" fpdst.name).log "ftruncate" fpdst.name with root := root1 } data
    hscl hsr hsoff (by show root1.fileAt fpsrc.target = some data; rw [hf1]; simp [hne, hsf])
    hdata hcl hcw hap rfl (by show root1.fileAt fpdst.target = some []; rw [hf1]; simp)
  have hf2 := Node.fileAt_setFile _ _ _ _ hs2
  unfold foFilePutStream
  rw [hseek]
  simp only
  rw [htr]
  simp only
  rw [hcp]
  simp only [File.Sync, File.Close, hcl]
  refine ⟨by simp, ?_⟩
  simp only [Bool.false_eq_true, if_false]
  have := hf2 fpdst.target
  simpa [OS.log] using this

theorem os.OpenFile_create_rw (name : String) (perm : Nat) (st : OS) :
    os.OpenFile name (O_RDWR ||| O_CREATE) perm st =
      match st.root.walk (st.resolve name) with
      | .ok (.dir _) => (.error (.PathError "open" name .EISDIR), st.log "open" name)
      | .ok (.file _) =>
        (.ok { name := name, target := st.resolve name, flag := O_RDWR ||| O_CREATE,
               offset := 0, closed := false }, st.log "open" name)
      | .error _ =>
        match st.root.setFile (st.resolve name) [] with
        | .ok root1 =>
          (.ok { name := name, target := st.resolve name, flag := O_RDWR ||| O_CREATE,
                 offset := 0, closed := false }, { st.log "open" name with root := root1 })
        | .error e1 => (.error (.PathError "open" name e1), st.log "open" name) := by
  have h1 : hasFlag (O_RDWR ||| O_CREATE) O_CREATE = true := by decide
  have h2 : hasFlag (O_RDWR ||| O_CREATE) O_EXCL = false := by decide
  have h3 : hasFlag (O_RDWR ||| O_CREATE) O_TRUNC = false := by decide
  unfold os.OpenFile
  cases hw : st.root.walk (st.resolve name) with
  | error e => simp [h1, hw]
  | ok n =>
    cases n with
    | file d => simp [h1, h2, h3, hw]
    | dir es => simp [h1, h2, hw]

theorem foFilePutCopy_zero (dst_path : String) (fpsrc : File) (st : OS)
    (hscl : fpsrc.closed = false) (hsf : st.root.fileAt fpsrc.target = some []) :
    (foFilePutCopy dst_path fpsrc st).1 = newResult .ResultError (some (.New "zero size")) ∧
      (foFilePutCopy dst_path fpsrc st).2.2.root = st.root := by
  have hw := (Node.fileAt_iff _ _ _).1 hsf
  simp [foFilePutCopy, File.Stat, hscl, hw, FileInfo.ofNode, OS.log]

theorem foFilePutCopy_ok (dst_path : String) (fpsrc : File) (st : OS) (data : List Byte)
    (hscl : fpsrc.closed = false) (hsr : fpsrc.canRead = true) (hsoff : fpsrc.offset = 0)
    (hsf : st.root.fileAt fpsrc.target = some data) (hdata : data ≠ [])
    (hne : fpsrc.target ≠ st.resolve dst_path)
    (hok : (foFilePutCopy dst_path fpsrc st).1.status = .ResultOK) :
    (foFilePutCopy dst_path fpsrc st).2.2.root.fileAt (st.resolve dst_path) = some data := by
  have hw := (Node.fileAt_iff _ _ _).1 hsf
  have hsize : ¬ data.length < 1 := by
    have : data.length ≠ 0 := by simpa using hdata
    omega
  have hcw : File.canWrite (File.mk dst_path (st.resolve dst_path) (O_RDWR ||| O_CREATE) 0 false)
      = true := by
    have : (accMode (O_RDWR ||| O_CREATE) = O_WRONLY || accMode (O_RDWR ||| O_CREATE) = O_RDWR)
        = true := by decide
    exact this
  have hap : File.appendMode
      (File.mk dst_path (st.resolve dst_path) (O_RDWR ||| O_CREATE) 0 false) = false := by
    have : hasFlag (O_RDWR ||| O_CREATE) O_APPEND = false := by decide
    exact this
  have hres : (st.log "fstat" fpsrc.name).resolve dst_path = st.resolve dst_path := rfl
  have hroot : (st.log "fstat" fpsrc.name).root = st.root := rfl
  simp only [foFilePutCopy, File.Stat, hscl, hw, FileInfo.ofNode, Bool.false_eq_true, if_false,
    if_neg hsize, os.OpenFile_create_rw, hres, hroot] at hok ⊢
  cases hwd : st.root.walk (st.resolve dst_path) with
  | ok n =>
    cases n with
    | dir es =>
      rw [hwd] at hok
      simp [newResult] at hok
    | file d2 =>
      simp only [hwd]
      exact (foFilePutStream_spec _ fpsrc ((st.log "fstat" fpsrc.name).log "open" dst_path)
        data d2 hscl hsr hsoff hsf hdata rfl hcw hap ((Node.fileAt_iff _ _ _).2 hwd) hne).2
  | error e =>
    rw [hwd] at hok
    simp only [hwd] at hok ⊢
    cases hset : st.root.setFile (st.resolve dst_path) [] with
    | error e1 =>
      rw [hset] at hok
      simp [newResult] at hok
    | ok root1 =>
      simp only [hset]
      have hf1 := Node.fileAt_setFile _ _ _ _ hset
      exact (foFilePutStream_spec _ fpsrc _ data [] hscl hsr hsoff
        (by show root1.fileAt fpsrc.target = some data; rw [hf1]; simp [hne, hsf]) hdata rfl
        hcw hap (by show root1.fileAt (st.resolve dst_path) = some []; rw [hf1]; simp) hne).2

theorem File.Close_root (f : File) (st : OS) : (f.Close st).2.2.root = st.root := by
  unfold File.Close
  split <;> rfl

theorem File.Close_cwd (f : File) (st : OS) : (f.Close st).2.2.cwd = st.cwd := by
  unfold File.Close
  split <;> rfl

theorem foFilePutOpen_zero (src_path dst_path : String) (st : OS)
    (hsf : st.root.fileAt (st.resolve src_path) = some []) :
    (foFilePutOpen src_path dst_path st).1 = newResult .ResultError (some (.New "zero size")) ∧
      (foFilePutOpen src_path dst_path st).2.root = st.root := by
  have hw := (Node.fileAt_iff _ _ _).1 hsf
  unfold foFilePutOpen
  rw [os.Open_eq, hw]
  simp only
  have h := foFilePutCopy_zero dst_path
    (File.mk src_path (st.resolve src_path) O_RDONLY 0 false) (st.log "open" src_path) rfl hsf
  refine ⟨h.1, ?_⟩
  rw [File.Close_root, h.2]
  rfl

theorem foFilePutOpen_missing (src_path dst_path : String) (st : OS)
    (hsf : st.root.existsAt (st.resolve src_path) = false) :
    (foFilePutOpen src_path dst_path st).1.status = .ResultError ∧
      (foFilePutOpen src_path dst_path st).2.root = st.root := by
  unfold foFilePutOpen
  rw [os.Open_eq]
  unfold Node.existsAt at hsf
  cases hw : st.root.walk (st.resolve src_path) with
  | ok n => rw [hw] at hsf; simp at hsf
  | error e => exact ⟨rfl, rfl⟩

theorem foFilePutOpen_ok (src_path dst_path : String) (st : OS) (data : List Byte)
    (hsf : st.root.fileAt (st.resolve src_path) = some data) (hdata : data ≠ [])
    (hne : st.resolve src_path ≠ st.resolve dst_path)
    (hok : (foFilePutOpen src_path dst_path st).1.status = .ResultOK) :
    (foFilePutOpen src_path dst_path st).2.root.fileAt (st.resolve dst_path) = some data := by
  have hw := (Node.fileAt_iff _ _ _).1 hsf
  unfold foFilePutOpen at hok ⊢
  rw [os.Open_eq, hw] at hok ⊢
  simp only at hok ⊢
  rw [File.Close_root]
  exact foFilePutCopy_ok dst_path (File.mk src_path (st.resolve src_path) O_RDONLY 0 false)
    (st.log "open" src_path) data rfl
    (by
      have : (accMode O_RDONLY = O_RDONLY || accMode O_RDONLY = O_RDWR) = true := by decide
      exact this)
    rfl hsf hdata hne hok

theorem os.MkdirAll_cases (name : String) (perm : Nat) (st : OS) :
    (∃ e, os.MkdirAll name perm st = (some e, st.log "mkdirall" name)) ∨
    (∃ root1, st.root.mkdirAll (st.resolve name) = .ok root1 ∧
      os.MkdirAll name perm st = (none, { st.log "mkdirall" name with root := root1 })) := by
  unfold os.MkdirAll
  cases hm : st.root.mkdirAll (st.resolve name) with
  | error e => left; exact ⟨_, rfl⟩
  | ok root1 => right; exact ⟨root1, rfl, rfl⟩

theorem Node.walk_snoc_dir (a : List Name) (c : Name) :
    ∀ (root n : Node), root.walk (a ++ [c]) = .ok n → ∃ es, root.walk a = .ok (.dir es) := by
  induction a with
  | nil =>
    intro root n h
    cases root with
    | file d => simp [Node.walk] at h
    | dir es => exact ⟨es, rfl⟩
  | cons x a ih =>
    intro root n h
    cases root with
    | file d => simp [Node.walk] at h
    | dir es =>
      simp only [List.cons_append] at h
      rw [Node.walk] at h ⊢
      cases hf : findEntry x es with
      | none => simp [hf] at h
      | some child =>
        simp only [hf] at h ⊢
        exact ih child n h

theorem OS.wf_dropLast (st : OS) (hwf : st.wf = true) :
    ∃ es, st.root.walk st.cwd.dropLast = .ok (.dir es) := by
  unfold OS.wf Node.dirAt at hwf
  cases hw : st.root.walk st.cwd with
  | error e => simp [hw] at hwf
  | ok n =>
    cases n with
    | file d => simp [hw] at hwf
    | dir es =>
      by_cases hc : st.cwd = []
      · rw [hc] at hw ⊢
        exact ⟨es, hw⟩
      · rw [← List.dropLast_append_getLast hc] at hw
        exact Node.walk_snoc_dir _ _ _ _ hw

/-- A path naming a regular file passes the path check of `FoFilePut`. -/
theorem source_valid (st : OS) (S : String) (d : List Byte) (hwf : st.wf = true)
    (hsrc : st.root.fileAt (st.resolve S) = some d) :
    ¬ (Clean S = "" ∨ Clean S = "." ∨ Clean S = "..") := by
  intro h
  rw [← OS.resolve_Clean] at hsrc
  have hw := (Node.fileAt_iff _ _ _).1 hsrc
  have hcwd : ∃ es, st.root.walk st.cwd = .ok (.dir es) := by
    unfold OS.wf Node.dirAt at hwf
    cases hw : st.root.walk st.cwd with
    | error e => simp [hw] at hwf
    | ok n =>
      cases n with
      | file d => simp [hw] at hwf
      | dir es => exact ⟨es, rfl⟩
  rcases h with h | h | h
  · rw [h] at hw
    have : st.resolve "" = st.cwd := by
      simp [OS.resolve, isRooted, resolveFrom, splitSlash, walkStep]
    rw [this] at hw
    obtain ⟨es, he⟩ := hcwd
    rw [he] at hw
    simp at hw
  · rw [h] at hw
    have : st.resolve "." = st.cwd := by
      simp [OS.resolve, isRooted, resolveFrom, splitSlash, walkStep]
    rw [this] at hw
    obtain ⟨es, he⟩ := hcwd
    rw [he] at hw
    simp at hw
  · rw [h] at hw
    have : st.resolve ".." = st.cwd.dropLast := by
      simp [OS.resolve, isRooted, resolveFrom, splitSlash, walkStep]
    rw [this] at hw
    obtain ⟨es, he⟩ := OS.wf_dropLast st hwf
    rw [he] at hw
    simp at hw

/-! ## Copy-in of an empty source (C4) -/

/-- C4, amended. For every filesystem state (whose working directory is a directory),
every source path naming a regular file of length 0 and every destination path that
passes the path check and whose parent directory chain exists or can be created,
`FoFilePut` returns an error-status result whose cause is "zero size", and every regular
file, in particular a destination that existed before the call, has the same content
after it; no regular file was created. -/
theorem C4_zero_size_source (R S D : String) (st : OS) (hwf : st.wf = true)
    (hsrc : st.root.fileAt (st.resolve S) = some [])
    (hdst : ¬ (Clean (R ++ "/" ++ D) = "" ∨ Clean (R ++ "/" ++ D) = "." ∨
      Clean (R ++ "/" ++ D) = ".."))
    (hmk : (os.MkdirAll (Dir (Clean (R ++ "/" ++ D))) 0o755 st).1 = none) :
    ((FileObjectConnector.mk ⟨R⟩).FoFilePut S D st).1 =
        newResult .ResultError (some (.New "zero size")) ∧
      ∀ q, ((FileObjectConnector.mk ⟨R⟩).FoFilePut S D st).2.root.fileAt q =
        st.root.fileAt q := by
  have hvalid := source_valid st S [] hwf hsrc
  simp only [FileObjectConnector.FoFilePut, if_neg hvalid, if_neg hdst]
  by_cases hd : Dir (Clean (R ++ "/" ++ D)) = ""
  · simp only [hd, ne_eq, not_true_eq_false, if_false]
    have h := foFilePutOpen_zero (Clean S) (Clean (R ++ "/" ++ D)) st
      (by rw [OS.resolve_Clean]; exact hsrc)
    exact ⟨h.1, fun q => by rw [h.2]⟩
  · simp only [ne_eq, hd, not_false_eq_true, if_true]
    rcases os.MkdirAll_cases (Dir (Clean (R ++ "/" ++ D))) 0o755 st with ⟨e, he⟩ | ⟨r1, hm, he⟩
    · rw [he] at hmk
      simp at hmk
    · rw [he]
      simp only
      have hfile := Node.fileAt_mkdirAll _ _ _ hm
      have h := foFilePutOpen_zero (Clean S) (Clean (R ++ "/" ++ D))
        { st.log "mkdirall" (Dir (Clean (R ++ "/" ++ D))) with root := r1 }
        (by
          show r1.fileAt (st.resolve (Clean S)) = some []
          rw [hfile, OS.resolve_Clean]
          exact hsrc)
      exact ⟨h.1, fun q => by rw [h.2]; exact hfile q⟩

/-! ## Copy-in of a non-empty source (C5) -/

/-- C5, amended. For every filesystem state, every source path naming a regular file of
length at least 1 and every destination path that does not name the source file itself:
if `FoFilePut` returns the OK status, then after the call the destination file under the
root has the length and, byte for byte, the content the source had before the call,
whatever the destination held previously. -/
theorem C5_copy_in_content (R S D : String) (st : OS) (data : List Byte)
    (hsrc : st.root.fileAt (st.resolve S) = some data) (hlen : 1 ≤ data.length)
    (hne : st.resolve S ≠ st.resolve (R ++ "/" ++ D))
    (hok : ((FileObjectConnector.mk ⟨R⟩).FoFilePut S D st).1.status = .ResultOK) :
    ∃ c, ((FileObjectConnector.mk ⟨R⟩).FoFilePut S D st).2.root.fileAt
        (st.resolve (R ++ "/" ++ D)) = some c ∧ c.length = data.length ∧ c = data := by
  refine ⟨data, ?_, rfl, rfl⟩
  have hdata : data ≠ [] := by
    intro h
    rw [h] at hlen
    simp at hlen
  have hne1 : st.resolve (Clean S) ≠ st.resolve (Clean (R ++ "/" ++ D)) := by
    rw [OS.resolve_Clean, OS.resolve_Clean]
    exact hne
  rw [← OS.resolve_Clean st (R ++ "/" ++ D)]
  unfold FileObjectConnector.FoFilePut at hok ⊢
  by_cases hv : Clean S = "" ∨ Clean S = "." ∨ Clean S = ".."
  · simp only [if_pos hv] at hok
    simp [newResult] at hok
  · simp only [if_neg hv] at hok ⊢
    by_cases hdst : Clean (R ++ "/" ++ D) = "" ∨ Clean (R ++ "/" ++ D) = "." ∨
        Clean (R ++ "/" ++ D) = ".."
    · simp only [if_pos hdst] at hok
      simp [newResult] at hok
    · simp only [if_neg hdst] at hok ⊢
      by_cases hd : Dir (Clean (R ++ "/" ++ D)) = ""
      · simp only [hd, ne_eq, not_true_eq_false, if_false] at hok ⊢
        exact foFilePutOpen_ok (Clean S) (Clean (R ++ "/" ++ D)) st data
          (by rw [OS.resolve_Clean]; exact hsrc) hdata hne1 hok
      · simp only [ne_eq, hd, not_false_eq_true, if_true] at hok ⊢
        rcases os.MkdirAll_cases (Dir (Clean (R ++ "/" ++ D))) 0o755 st with
          ⟨e, he⟩ | ⟨r1, hm, he⟩
        · rw [he] at hok
          simp [newResult] at hok
        · rw [he] at hok ⊢
          simp only at hok ⊢
          have hfile := Node.fileAt_mkdirAll _ _ _ hm
          exact foFilePutOpen_ok (Clean S) (Clean (R ++ "/" ++ D))
            { st.log "mkdirall" (Dir (Clean (R ++ "/" ++ D))) with root := r1 } data
            (by
              show r1.fileAt (st.resolve (Clean S)) = some data
              rw [hfile, OS.resolve_Clean]
              exact hsrc)
            hdata hne1 hok

/-! ## Copy-in with an unusable source (C10) -/

theorem Node.existsAt_nil (n : Node) : n.existsAt [] = true := by
  simp [Node.existsAt, Node.walk]

theorem Node.existsAt_file_cons (d : List Byte) (c : Name) (cs : List Name) :
    (Node.file d).existsAt (c :: cs) = false := by
  simp [Node.existsAt, Node.walk]

theorem Node.existsAt_dir_cons (es : List (Name × Node)) (c : Name) (cs : List Name) :
    (Node.dir es).existsAt (c :: cs) =
      match findEntry c es with
      | some child => child.existsAt cs
      | none => false := by
  unfold Node.existsAt
  rw [Node.walk]
  cases findEntry c es <;> simp

/-- Creating directories makes nothing appear outside the chain that was asked for. -/
theorem Node.existsAt_mkdirAll (p : List Name) :
    ∀ (root root1 : Node), root.mkdirAll p = .ok root1 →
      ∀ q, root1.existsAt q = true → root.existsAt q = true ∨ q <+: p := by
  induction p with
  | nil =>
    intro root root1 h q hq
    cases root with
    | file d => simp [Node.mkdirAll] at h
    | dir es =>
      simp [Node.mkdirAll] at h
      subst h
      exact Or.inl hq
  | cons c cs ih =>
    intro root root1 h q hq
    cases root with
    | file d => simp [Node.mkdirAll] at h
    | dir es =>
      rw [Node.mkdirAll] at h
      cases q with
      | nil => exact Or.inl (Node.existsAt_nil _)
      | cons c1 qs =>
        cases hf : findEntry c es with
        | none =>
          simp only [hf] at h
          cases hm : (Node.dir []).mkdirAll cs with
          | error e => simp [hm] at h
          | ok child1 =>
            simp only [hm] at h
            simp at h
            subst h
            rw [Node.existsAt_dir_cons] at hq ⊢
            by_cases hc : c1 = c
            · subst hc
              rw [findEntry_putEntry_self] at hq
              right
              rcases ih _ _ hm qs hq with h1 | h1
              · cases qs with
                | nil => simp
                | cons c2 qs2 => simp [Node.existsAt_dir_cons, findEntry] at h1
              · exact List.cons_prefix_cons.2 ⟨rfl, h1⟩
            · rw [findEntry_putEntry_other _ _ _ _ hc] at hq
              exact Or.inl hq
        | some child =>
          simp only [hf] at h
          cases hm : child.mkdirAll cs with
          | error e => simp [hm] at h
          | ok child1 =>
            simp only [hm] at h
            simp at h
            subst h
            rw [Node.existsAt_dir_cons] at hq ⊢
            by_cases hc : c1 = c
            · subst hc
              rw [findEntry_putEntry_self] at hq
              rw [hf]
              rcases ih _ _ hm qs hq with h1 | h1
              · exact Or.inl h1
              · exact Or.inr (List.cons_prefix_cons.2 ⟨rfl, h1⟩)
            · rw [findEntry_putEntry_other _ _ _ _ hc] at hq
              exact Or.inl hq

theorem Clean_ne_empty (p : String) : Clean p ≠ "" := by
  intro h
  have hd := Clean_data p
  rw [h] at hd
  by_cases hc : p.data = [] ∨ cleanChars p.data = []
  · rw [if_pos hc] at hd
    cases hd
  · rw [if_neg hc] at hd
    exact hc (Or.inr hd.symm)

theorem Dir_ne_empty (p : String) : Dir p ≠ "" :=
  Clean_ne_empty _

theorem Node.dirAt_dir_nil (es : List (Name × Node)) : (Node.dir es).dirAt [] = some es := by
  simp [Node.dirAt, Node.walk]

theorem Node.dirAt_dir_cons (es : List (Name × Node)) (c : Name) (cs : List Name) :
    (Node.dir es).dirAt (c :: cs) =
      match findEntry c es with
      | some child => child.dirAt cs
      | none => none := by
  unfold Node.dirAt
  rw [Node.walk]
  cases findEntry c es <;> simp

/-- After `MkdirAll` the directory that was asked for exists. -/
theorem Node.dirAt_mkdirAll (p : List Name) :
    ∀ (root root1 : Node), root.mkdirAll p = .ok root1 → (root1.dirAt p).isSome = true := by
  induction p with
  | nil =>
    intro root root1 h
    cases root with
    | file d => simp [Node.mkdirAll] at h
    | dir es =>
      simp [Node.mkdirAll] at h
      subst h
      simp [Node.dirAt_dir_nil]
  | cons c cs ih =>
    intro root root1 h
    cases root with
    | file d => simp [Node.mkdirAll] at h
    | dir es =>
      rw [Node.mkdirAll] at h
      cases hf : findEntry c es with
      | none =>
        simp only [hf] at h
        cases hm : (Node.dir []).mkdirAll cs with
        | error e => simp [hm] at h
        | ok child1 =>
          simp only [hm] at h
          simp at h
          subst h
          rw [Node.dirAt_dir_cons, findEntry_putEntry_self]
          exact ih _ _ hm
      | some child =>
        simp only [hf] at h
        cases hm : child.mkdirAll cs with
        | error e => simp [hm] at h
        | ok child1 =>
          simp only [hm] at h
          simp at h
          subst h
          rw [Node.dirAt_dir_cons, findEntry_putEntry_self]
          exact ih _ _ hm

/-- A path that fails the path check names a directory: the working directory or its
parent. -/
theorem degenerate_names_dir (st : OS) (S : String) (hwf : st.wf = true)
    (h : Clean S = "" ∨ Clean S = "." ∨ Clean S = "..") :
    ∃ es, st.root.walk (st.resolve S) = .ok (.dir es) := by
  rw [← OS.resolve_Clean]
  have hcwd : ∃ es, st.root.walk st.cwd = .ok (.dir es) := by
    unfold OS.wf Node.dirAt at hwf
    cases hw : st.root.walk st.cwd with
    | error e => simp [hw] at hwf
    | ok n =>
      cases n with
      | file d => simp [hw] at hwf
      | dir es => exact ⟨es, rfl⟩
  rcases h with h | h | h
  · rw [h]
    have : st.resolve "" = st.cwd := by
      simp [OS.resolve, isRooted, resolveFrom, splitSlash, walkStep]
    rw [this]
    exact hcwd
  · rw [h]
    have : st.resolve "." = st.cwd := by
      simp [OS.resolve, isRooted, resolveFrom, splitSlash, walkStep]
    rw [this]
    exact hcwd
  · rw [h]
    have : st.resolve ".." = st.cwd.dropLast := by
      simp [OS.resolve, isRooted, resolveFrom, splitSlash, walkStep]
    rw [this]
    exact OS.wf_dropLast st hwf

theorem foFilePutOpen_zero_eq (src_path dst_path : String) (st : OS)
    (hsf : st.root.fileAt (st.resolve src_path) = some []) :
    foFilePutOpen src_path dst_path st =
      (newResult .ResultError (some (.New "zero size")),
        ((st.log "open" src_path).log "fstat" src_path).log "close" src_path) := by
  have hw := (Node.fileAt_iff _ _ _).1 hsf
  unfold foFilePutOpen
  rw [os.Open_eq, hw]
  simp [foFilePutCopy, File.Stat, hw, FileInfo.ofNode, File.Close]

theorem foFilePutOpen_missing_eq (src_path dst_path : String) (st : OS)
    (hsf : st.root.existsAt (st.resolve src_path) = false) :
    ∃ e, foFilePutOpen src_path dst_path st =
      (newResult .ResultError (some (.PathError "open" src_path e)),
        st.log "open" src_path) := by
  unfold foFilePutOpen
  rw [os.Open_eq]
  unfold Node.existsAt at hsf
  cases hw : st.root.walk (st.resolve src_path) with
  | ok n => rw [hw] at hsf; simp at hsf
  | error e => exact ⟨e, rfl⟩

/-- C10, amended. `FoFilePut` ensures the destination's parent directories before it opens
the source. Take a filesystem state (whose working directory is a directory) in which the
source path names a zero-length file, or cannot be opened and is not one of the
directories of the destination's parent chain. Then `FoFilePut` returns an error-status
result and no regular file has been created, changed or removed. A destination that fails
the path check is rejected with "Invalid DST Path" before any native call. Otherwise the
first native call is `MkdirAll` on the destination's directory: if it fails, `FoFilePut`
returns its error and nothing else happened; if it succeeds, the filesystem after the call
is exactly the result of that `MkdirAll`, so the destination's parent directories exist,
and only then the source was opened: the calls are `mkdirall`, `open`, `fstat`, `close`
with the cause "zero size" for the empty source, and `mkdirall`, `open` with the error of
the open for the source that cannot be opened. -/
theorem C10_unusable_source (R S D : String) (st : OS) (hwf : st.wf = true)
    (hsrc : st.root.fileAt (st.resolve S) = some [] ∨
      (st.root.existsAt (st.resolve S) = false ∧
        ¬ (st.resolve S <+: st.resolve (Dir (Clean (R ++ "/" ++ D)))))) :
    (((FileObjectConnector.mk ⟨R⟩).FoFilePut S D st).1.status = .ResultError ∧
      ∀ q, ((FileObjectConnector.mk ⟨R⟩).FoFilePut S D st).2.root.fileAt q =
        st.root.fileAt q) ∧
    ((Clean (R ++ "/" ++ D) = "" ∨ Clean (R ++ "/" ++ D) = "." ∨
        Clean (R ++ "/" ++ D) = "..") →
      (FileObjectConnector.mk ⟨R⟩).FoFilePut S D st =
        (newResult .ResultError (some (.New "Invalid DST Path")), st)) ∧
    (¬ (Clean (R ++ "/" ++ D) = "" ∨ Clean (R ++ "/" ++ D) = "." ∨
        Clean (R ++ "/" ++ D) = "..") →
      (∀ e, st.root.mkdirAll (st.resolve (Dir (Clean (R ++ "/" ++ D)))) = .error e →
        (FileObjectConnector.mk ⟨R⟩).FoFilePut S D st =
          (newResult .ResultError (os.MkdirAll (Dir (Clean (R ++ "/" ++ D))) 0o755 st).1,
            st.log "mkdirall" (Dir (Clean (R ++ "/" ++ D))))) ∧
      (∀ r1, st.root.mkdirAll (st.resolve (Dir (Clean (R ++ "/" ++ D)))) = .ok r1 →
        (r1.dirAt (st.resolve (Dir (Clean (R ++ "/" ++ D))))).isSome = true ∧
        ((FileObjectConnector.mk ⟨R⟩).FoFilePut S D st).2.root = r1 ∧
        (st.root.fileAt (st.resolve S) = some [] →
          (FileObjectConnector.mk ⟨R⟩).FoFilePut S D st =
            (newResult .ResultError (some (.New "zero size")),
              (((OS.mk r1 st.cwd (st.log "mkdirall" (Dir (Clean (R ++ "/" ++ D)))).calls).log
                "open" (Clean S)).log "fstat" (Clean S)).log "close" (Clean S))) ∧
        (st.root.existsAt (st.resolve S) = false →
          ∃ e, (FileObjectConnector.mk ⟨R⟩).FoFilePut S D st =
            (newResult .ResultError (some (.PathError "open" (Clean S) e)),
              (OS.mk r1 st.cwd (st.log "mkdirall" (Dir (Clean (R ++ "/" ++ D)))).calls).log
                "open" (Clean S))))) := by
  have hvalid : ¬ (Clean S = "" ∨ Clean S = "." ∨ Clean S = "..") := by
    intro h
    obtain ⟨es, hw⟩ := degenerate_names_dir st S hwf h
    rcases hsrc with h0 | ⟨hmiss, _⟩
    · rw [(Node.fileAt_iff _ _ _).1 h0] at hw
      simp at hw
    · simp [Node.existsAt, hw] at hmiss
  have hd : Dir (Clean (R ++ "/" ++ D)) ≠ "" := Dir_ne_empty _
  have hex : st.root.fileAt (st.resolve S) = some [] → st.root.existsAt (st.resolve S) = false →
      False := by
    intro h0 h1
    simp [Node.existsAt, (Node.fileAt_iff _ _ _).1 h0] at h1
  unfold FileObjectConnector.FoFilePut
  simp only [if_neg hvalid]
  by_cases hdst : Clean (R ++ "/" ++ D) = "" ∨ Clean (R ++ "/" ++ D) = "." ∨
      Clean (R ++ "/" ++ D) = ".."
  · rw [if_pos hdst]
    exact ⟨⟨rfl, fun q => rfl⟩, fun _ => rfl, fun h => absurd hdst h⟩
  · rw [if_neg hdst, if_pos hd]
    cases hm : st.root.mkdirAll (st.resolve (Dir (Clean (R ++ "/" ++ D)))) with
    | error e =>
      have hmk : os.MkdirAll (Dir (Clean (R ++ "/" ++ D))) 0o755 st =
          (some (.PathError "mkdir" (Dir (Clean (R ++ "/" ++ D))) e),
            st.log "mkdirall" (Dir (Clean (R ++ "/" ++ D)))) := by
        simp [os.MkdirAll, hm]
      rw [hmk]
      refine ⟨⟨rfl, fun q => rfl⟩, fun h => absurd h hdst, fun _ => ⟨fun e1 _ => rfl, ?_⟩⟩
      intro r1 h1
      cases h1
    | ok r1 =>
      have hmk : os.MkdirAll (Dir (Clean (R ++ "/" ++ D))) 0o755 st =
          (none, OS.mk r1 st.cwd (st.log "mkdirall" (Dir (Clean (R ++ "/" ++ D)))).calls) := by
        simp [os.MkdirAll, hm]
      rw [hmk]
      simp only
      have hfile := Node.fileAt_mkdirAll _ _ _ hm
      have hres : (OS.mk r1 st.cwd (st.log "mkdirall" (Dir (Clean (R ++ "/" ++ D)))).calls).resolve
          (Clean S) = st.resolve S := by
        rw [← OS.resolve_Clean st S]
        rfl
      have hzero : st.root.fileAt (st.resolve S) = some [] →
          foFilePutOpen (Clean S) (Clean (R ++ "/" ++ D))
              (OS.mk r1 st.cwd (st.log "mkdirall" (Dir (Clean (R ++ "/" ++ D)))).calls) =
            (newResult .ResultError (some (.New "zero size")),
              (((OS.mk r1 st.cwd (st.log "mkdirall" (Dir (Clean (R ++ "/" ++ D)))).calls).log
                "open" (Clean S)).log "fstat" (Clean S)).log "close" (Clean S)) := by
        intro h0
        apply foFilePutOpen_zero_eq
        rw [hres]
        show r1.fileAt (st.resolve S) = some []
        rw [hfile]
        exact h0
      have hmissing : st.root.existsAt (st.resolve S) = false →
          ∃ e, foFilePutOpen (Clean S) (Clean (R ++ "/" ++ D))
              (OS.mk r1 st.cwd (st.log "mkdirall" (Dir (Clean (R ++ "/" ++ D)))).calls) =
            (newResult .ResultError (some (.PathError "open" (Clean S) e)),
              (OS.mk r1 st.cwd (st.log "mkdirall" (Dir (Clean (R ++ "/" ++ D)))).calls).log
                "open" (Clean S)) := by
        intro hmiss
        apply foFilePutOpen_missing_eq
        rw [hres]
        show r1.existsAt (st.resolve S) = false
        rcases hsrc with h0 | ⟨_, hpre⟩
        · exact absurd hmiss (fun h => hex h0 h)
        · cases hx : r1.existsAt (st.resolve S) with
          | false => rfl
          | true =>
            rcases Node.existsAt_mkdirAll _ _ _ hm _ hx with h1 | h1
            · rw [hmiss] at h1; cases h1
            · exact absurd h1 hpre
      have hroot : (foFilePutOpen (Clean S) (Clean (R ++ "/" ++ D))
          (OS.mk r1 st.cwd (st.log "mkdirall" (Dir (Clean (R ++ "/" ++ D)))).calls)).2.root
            = r1 ∧
          (foFilePutOpen (Clean S) (Clean (R ++ "/" ++ D))
          (OS.mk r1 st.cwd (st.log "mkdirall" (Dir (Clean (R ++ "/" ++ D)))).calls)).1.status
            = .ResultError := by
        rcases hsrc with h0 | ⟨hmiss, _⟩
        · rw [hzero h0]
          exact ⟨rfl, rfl⟩
        · obtain ⟨e, he⟩ := hmissing hmiss
          rw [he]
          exact ⟨rfl, rfl⟩
      have hfiles : ∀ q, (foFilePutOpen (Clean S) (Clean (R ++ "/" ++ D))
          (OS.mk r1 st.cwd (st.log "mkdirall" (Dir (Clean (R ++ "/" ++ D)))).calls)).2.root.fileAt
            q = st.root.fileAt q := by
        intro q
        rw [hroot.1]
        exact hfile q
      refine ⟨⟨hroot.2, hfiles⟩, fun h => absurd h hdst, fun _ => ⟨?_, ?_⟩⟩
      · intro e h1
        cases h1
      · intro r2 h2
        have hr : r2 = r1 := by
          cases h2
          rfl
        subst hr
        exact ⟨Node.dirAt_mkdirAll _ _ _ hm, hroot.1, hzero, hmissing⟩

/-! ## Further facts about `FoFilePut` -/

/-- The source side of the path check of `FoFilePut`: a source path that cleans to `""`,
`"."` or `".."` is rejected with "Invalid SRC Path" before any native call. -/
theorem FoFilePut_invalid_source (R S D : String) (st : OS)
    (h : Clean S = "" ∨ Clean S = "." ∨ Clean S = "..") :
    (FileObjectConnector.mk ⟨R⟩).FoFilePut S D st =
      (newResult .ResultError (some (.New "Invalid SRC Path")), st) := by
  simp only [FileObjectConnector.FoFilePut, if_pos h]

/-- A source that cannot be opened before the call can be one of the directories that
`FoFilePut` creates for the destination: `/data/p` does not exist, `MkdirAll` creates it
on the way to `/data/p/q`, the source then opens as a directory, the destination
`/data/p/q/r` is created, and the copy fails. -/
theorem FoFilePut_source_in_parent_chain :
    demoOS.root.existsAt (demoOS.resolve "/data/p") = false ∧
    (demoOS.resolve "/data/p" <+: demoOS.resolve (Dir (Clean ("/data" ++ "/" ++ "p/q/r")))) ∧
    (demoFoConn.FoFilePut "/data/p" "p/q/r" demoOS).1.status = .ResultError ∧
    (demoFoConn.FoFilePut "/data/p" "p/q/r" demoOS).2.root.fileAt ["data", "p", "q", "r"] =
      some [] := by
  decide

/-! ## Concrete runs -/

/-- C2 at the failing input: on the root `/data` the caller path `../etc/passwd` passes
the path check; the native path `/data/../etc/passwd` normalizes to `/etc/passwd`, which
is not below `/data`, and `Stat`, `Open`, `OpenFile` and `List` operate on objects outside
the root. -/
theorem C2_escapes_root :
    ¬ (Clean "../etc/passwd" = "" ∨ Clean "../etc/passwd" = "." ∨
        Clean "../etc/passwd" = "..") ∧
    Clean ("/data" ++ "/" ++ Clean "../etc/passwd") = "/etc/passwd" ∧
    demoOS.resolve "/data" = ["data"] ∧
    demoOS.resolve ("/data" ++ "/" ++ Clean "../etc/passwd") = ["etc", "passwd"] ∧
    (demoConn.Stat "../etc/passwd" demoOS).1 =
      .ok { name := "passwd", size := 4, isDir := false } ∧
    (demoConn.Open "../etc/passwd" demoOS).1 =
      .ok { fp := { name := "/data/../etc/passwd", target := ["etc", "passwd"],
                    flag := O_RDONLY, offset := 0, closed := false } } ∧
    (demoConn.OpenFile "../etc/passwd" O_RDWR 0o644 demoOS).1 =
      .ok { fp := { name := "/data/../etc/passwd", target := ["etc", "passwd"],
                    flag := O_RDWR, offset := 0, closed := false } } ∧
    (demoConn.List "../etc" 0 demoOS).1 = .ok [{ name := "passwd", size := 4, isDir := false }] ∧
    (demoConn.MkdirAll "../outside" 0o755 demoOS).2.root.existsAt ["outside"] = true := by
  decide

/-- C3 at the failing input: the destination `.` is degenerate, and `FoFileOpen` rejects
it, but `FoFilePut` checks `Clean(R + "/" + D)`, here `/data`, which passes. On the
ordinary state the call runs `MkdirAll`, opens the source and fails only in the native
open of `/data`; once `/data` is gone it creates the regular file `/data` with the content
of the source and returns the OK status. -/
theorem C3_destination_not_validated :
    (Clean "." = "" ∨ Clean "." = "." ∨ Clean "." = "..") ∧
    (demoFoConn.FoFileOpen "." goneRootOS).1 = .error (.New "Invalid Path") ∧
    Clean ("/data" ++ "/" ++ ".") = "/data" ∧
    (demoFoConn.FoFilePut "/src.bin" "." demoOS).1 =
      newResult .ResultError (some (.PathError "open" "/data" .EISDIR)) ∧
    (demoFoConn.FoFilePut "/src.bin" "." demoOS).2.calls =
      [⟨"mkdirall", "/"⟩, ⟨"open", "/src.bin"⟩, ⟨"fstat", "/src.bin"⟩, ⟨"open", "/data"⟩,
        ⟨"close", "/src.bin"⟩] ∧
    goneRootOS.root.existsAt ["data"] = false ∧
    (demoFoConn.FoFilePut "/src.bin" "." goneRootOS).1 = newResult .ResultOK none ∧
    (demoFoConn.FoFilePut "/src.bin" "." goneRootOS).2.root.fileAt ["data"] =
      some [1, 2, 3] := by
  decide

/-- C4 as stated fails: `/zero.bin` is an openable file of length 0 and `a/f.txt/x` passes
the path check, but `/data/a/f.txt` is a regular file, so `MkdirAll` fails first and the
cause of the result is its error, not "zero size". -/
theorem C4_counterexample :
    demoOS.root.fileAt (demoOS.resolve "/zero.bin") = some [] ∧
    ¬ (Clean ("/data" ++ "/" ++ "a/f.txt/x") = "" ∨ Clean ("/data" ++ "/" ++ "a/f.txt/x") = "." ∨
        Clean ("/data" ++ "/" ++ "a/f.txt/x") = "..") ∧
    (demoFoConn.FoFilePut "/zero.bin" "a/f.txt/x" demoOS).1 =
      newResult .ResultError (some (.PathError "mkdir" "/data/a/f.txt" .ENOTDIR)) ∧
    (demoFoConn.FoFilePut "/zero.bin" "a/f.txt/x" demoOS).1.cause ≠
      some (.New "zero size") := by
  decide

/-- C4, amended, on the empty source `/zero.bin` and the existing destination
`old.bin`. -/
theorem C4_zero_size_source_witness :
    demoOS.wf = true ∧ demoOS.root.fileAt (demoOS.resolve "/zero.bin") = some [] ∧
    (os.MkdirAll (Dir (Clean ("/data" ++ "/" ++ "old.bin"))) 0o755 demoOS).1 = none ∧
    (demoFoConn.FoFilePut "/zero.bin" "old.bin" demoOS).1 =
      newResult .ResultError (some (.New "zero size")) ∧
    (demoFoConn.FoFilePut "/zero.bin" "old.bin" demoOS).2.root.fileAt ["data", "old.bin"] =
      demoOS.root.fileAt ["data", "old.bin"] :=
  have h := C4_zero_size_source "/data" "/zero.bin" "old.bin" demoOS (by decide) (by decide)
    (by decide) (by decide)
  ⟨by decide, by decide, by decide, h.1, h.2 ["data", "old.bin"]⟩

/-- C5 as stated fails when the source is the destination file: `/data/old.bin` holds four
bytes, `FoFilePut("/data/old.bin", "old.bin")` returns the OK status, and afterwards the
file is empty. -/
theorem C5_counterexample :
    demoOS.root.fileAt (demoOS.resolve "/data/old.bin") = some [9, 9, 9, 9] ∧
    (demoFoConn.FoFilePut "/data/old.bin" "old.bin" demoOS).1.status = .ResultOK ∧
    (demoFoConn.FoFilePut "/data/old.bin" "old.bin" demoOS).2.root.fileAt
      (demoOS.resolve ("/data" ++ "/" ++ "old.bin")) = some [] := by
  decide

/-- C5, amended, copying `/src.bin` over the existing `/data/old.bin`. -/
theorem C5_copy_in_content_witness :
    demoOS.root.fileAt (demoOS.resolve "/src.bin") = some [1, 2, 3] ∧
    demoOS.resolve "/src.bin" ≠ demoOS.resolve ("/data" ++ "/" ++ "old.bin") ∧
    (demoFoConn.FoFilePut "/src.bin" "old.bin" demoOS).1.status = .ResultOK ∧
    ∃ c, (demoFoConn.FoFilePut "/src.bin" "old.bin" demoOS).2.root.fileAt
        (demoOS.resolve ("/data" ++ "/" ++ "old.bin")) = some c ∧
      c.length = [1, 2, 3].length ∧ c = [1, 2, 3] :=
  ⟨by decide, by decide, by decide,
    C5_copy_in_content "/data" "/src.bin" "old.bin" demoOS [1, 2, 3] (by decide) (by decide)
      (by decide) (by decide)⟩

/-- C6 as stated fails for a handle in append mode: `OpenFile("old.bin",
O_WRONLY|O_APPEND, 0644)` returns a handle that is open for writing (`(*os.File).Write`
succeeds on it), but `FsObject.Write` goes through `WriteAt`, which rejects append-mode
files: both `Write([1, 2, 3])` and `Write([7])` fail and the file keeps its four bytes, so
its first byte is not `7`. -/
theorem C6_counterexample :
    plainFlags appendFlags = true ∧
    (demoConn.OpenFile "old.bin" appendFlags 0o644 demoOS).1 =
      .ok { fp := { name := "/data/old.bin", target := ["data", "old.bin"],
                    flag := appendFlags, offset := 0, closed := false } } ∧
    (File.mk "/data/old.bin" ["data", "old.bin"] appendFlags 0 false).canWrite = true ∧
    ((File.mk "/data/old.bin" ["data", "old.bin"] appendFlags 0 false).Write [7] demoOS).1 =
      .ok 1 ∧
    ((FsObject.mk (File.mk "/data/old.bin" ["data", "old.bin"] appendFlags 0 false)).Write
      [1, 2, 3] demoOS).1 = .error .ErrWriteAtInAppendMode ∧
    ((FsObject.mk (File.mk "/data/old.bin" ["data", "old.bin"] appendFlags 0 false)).Write
      [7] demoOS).1 = .error .ErrWriteAtInAppendMode ∧
    ((FsObject.mk (File.mk "/data/old.bin" ["data", "old.bin"] appendFlags 0 false)).Write
      [7] ((FsObject.mk (File.mk "/data/old.bin" ["data", "old.bin"] appendFlags 0 false)).Write
        [1, 2, 3] demoOS).2.2).2.2.root.fileAt ["data", "old.bin"] = some [9, 9, 9, 9] := by
  decide

/-- C6, amended, on a handle with the cursor at offset 3 over a file of four bytes: after
`Write([1, 2, 3])` and `Write([7])` the file starts with `7, 2, 3`. -/
theorem C6_write_overwrites_from_start_witness :
    demoHandle.writableNoAppend demoOS [9, 9, 9, 9] = true ∧ [7].length ≤ [1, 2, 3].length ∧
    (demoHandle.Write [1, 2, 3] demoOS).2.1 = demoHandle ∧
    ((demoHandle.Write [1, 2, 3] demoOS).2.1.Write [7]
      (demoHandle.Write [1, 2, 3] demoOS).2.2).2.1 = demoHandle ∧
    ∃ c2, ((demoHandle.Write [1, 2, 3] demoOS).2.1.Write [7]
        (demoHandle.Write [1, 2, 3] demoOS).2.2).2.2.root.fileAt ["data", "old.bin"] = some c2 ∧
      c2.take 1 = [7] ∧ (c2.drop 1).take 2 = [2, 3] :=
  have hw : demoHandle.writableNoAppend demoOS [9, 9, 9, 9] = true := by decide
  have h := C6_write_overwrites_from_start demoHandle demoOS [9, 9, 9, 9] [1, 2, 3] [7] hw
    (by decide)
  ⟨hw, by decide, h.2.1, h.2.2.2.1,
    h.2.2.2.2.elim fun c2 hc => ⟨c2, hc.1, hc.2.1, hc.2.2.1⟩⟩

/-- C7 as stated fails on an empty directory: `/data/empty` has 0 entries, and `List` with
the limit 2 does not succeed with `min(2, 0) = 0` entries but fails with `io.EOF`. -/
theorem C7_counterexample :
    ¬ (Clean "empty" = "" ∨ Clean "empty" = "." ∨ Clean "empty" = "..") ∧
    (demoOS.root.dirAt (demoOS.resolve ("/data" ++ "/" ++ Clean "empty"))).map List.length
      = some 0 ∧
    (demoConn.List "empty" 2 demoOS).1 = .error .EOF ∧
    succeeded (demoConn.List "empty" 2 demoOS).1 = false := by
  decide

/-- C7, amended, on `/data/five`, which has five entries, with the limit 2. -/
theorem C7_list_limit_witness :
    ¬ (Clean "five" = "" ∨ Clean "five" = "." ∨ Clean "five" = "..") ∧
    (demoOS.root.dirAt (demoOS.resolve ("/data" ++ "/" ++ Clean "five"))).map List.length
      = some 5 ∧
    ∃ ls, (demoConn.List "five" 2 demoOS).1 = .ok ls ∧ ls.length = min 2 5 :=
  have h := C7_list_limit "/data" "five" 2 demoOS
    [("1", .file [1]), ("2", .file [2, 2]), ("3", .dir []), ("4", .file []), ("5", .file [5])]
    (by decide) (by rfl)
  ⟨by decide, by decide,
    (h.2.1 (by decide) (by simp)).elim fun ls hl => ⟨ls, hl.1, hl.2.2.1⟩⟩

/-- C9 as stated fails for `OpenFile` with `O_CREATE`: `new.txt` is relative and
`/data/new.txt` is a proper descendant of the configured root `/data` that does not exist,
yet `OpenFile("new.txt", O_RDWR|O_CREATE, 0644)` succeeds. -/
theorem C9_counterexample :
    Clean "/data" = "/data" ∧ isRooted "new.txt" = false ∧
    properDescendant (demoOS.resolve ("/data" ++ "/" ++ "new.txt")) (demoOS.resolve "/data")
      = true ∧
    demoOS.root.existsAt (demoOS.resolve ("/data" ++ "/" ++ "new.txt")) = false ∧
    plainFlags (O_RDWR ||| O_CREATE) = true ∧
    succeeded (demoConn.OpenFile "new.txt" (O_RDWR ||| O_CREATE) 0o644 demoOS).1 = true := by
  decide

/-- C9, amended, on the existing file `a/f.txt` of the root `/data`, opened read-write. -/
theorem C9_open_stat_iff_exists_witness :
    isRooted "a/f.txt" = false ∧
    properDescendant (demoOS.resolve (Clean "/data" ++ "/" ++ "a/f.txt"))
      (demoOS.resolve (Clean "/data")) = true ∧
    plainFlags O_RDWR = true ∧
    demoOS.root.existsAt (demoOS.resolve (Clean "/data" ++ "/" ++ Clean "a/f.txt")) = true ∧
    succeeded ((Connector.mk ⟨Clean "/data"⟩).Open "a/f.txt" demoOS).1 = true ∧
    succeeded ((Connector.mk ⟨Clean "/data"⟩).Stat "a/f.txt" demoOS).1 = true ∧
    succeeded ((Connector.mk ⟨Clean "/data"⟩).OpenFile "a/f.txt" O_RDWR 0o644 demoOS).1
      = true :=
  have hd : properDescendant (demoOS.resolve (Clean "/data" ++ "/" ++ "a/f.txt"))
      (demoOS.resolve (Clean "/data")) = true := by decide
  have h := C9_open_stat_iff_exists "/data" "a/f.txt" O_RDWR 0o644 demoOS (by decide) hd
  have he : demoOS.root.existsAt
      (demoOS.resolve (Clean "/data" ++ "/" ++ Clean "a/f.txt")) = true := by decide
  ⟨by decide, hd, by decide, he, h.1.2 he, h.2.1.2 he,
    (h.2.2 (by decide) (by decide) (by decide)).2 he⟩

/-- C10 as stated fails: `/nosuch` cannot be opened, `FoFilePut("/nosuch", "p/q/r")`
returns an error-status result, and yet the directories `/data/p` and `/data/p/q`, which
did not exist before the call, exist after it. -/
theorem C10_counterexample :
    demoOS.root.existsAt (demoOS.resolve "/nosuch") = false ∧
    (demoFoConn.FoFilePut "/nosuch" "p/q/r" demoOS).1.status = .ResultError ∧
    demoOS.root.existsAt ["data", "p"] = false ∧
    (demoFoConn.FoFilePut "/nosuch" "p/q/r" demoOS).2.root.existsAt ["data", "p"] = true ∧
    (demoFoConn.FoFilePut "/nosuch" "p/q/r" demoOS).2.root.existsAt ["data", "p", "q"] = true ∧
    (demoFoConn.FoFilePut "/nosuch" "p/q/r" demoOS).2.calls.map (fun c => c.op) =
      ["mkdirall", "open"] := by
  decide

/-- C10, amended, on the missing source `/nosuch` and the destination `p/q/r`: the result
is an error, the file `/data/old.bin` is untouched, and the directory `/data/p/q` exists
after the call. -/
theorem C10_unusable_source_witness :
    demoOS.wf = true ∧
    (demoOS.root.existsAt (demoOS.resolve "/nosuch") = false ∧
      ¬ (demoOS.resolve "/nosuch" <+:
        demoOS.resolve (Dir (Clean ("/data" ++ "/" ++ "p/q/r"))))) ∧
    (demoFoConn.FoFilePut "/nosuch" "p/q/r" demoOS).1.status = .ResultError ∧
    (demoFoConn.FoFilePut "/nosuch" "p/q/r" demoOS).2.root.fileAt ["data", "old.bin"] =
      demoOS.root.fileAt ["data", "old.bin"] ∧
    ∀ r1, demoOS.root.mkdirAll (demoOS.resolve (Dir (Clean ("/data" ++ "/" ++ "p/q/r"))))
        = .ok r1 →
      (r1.dirAt (demoOS.resolve (Dir (Clean ("/data" ++ "/" ++ "p/q/r"))))).isSome = true ∧
        (demoFoConn.FoFilePut "/nosuch" "p/q/r" demoOS).2.root = r1 :=
  have hs : demoOS.root.existsAt (demoOS.resolve "/nosuch") = false ∧
      ¬ (demoOS.resolve "/nosuch" <+:
        demoOS.resolve (Dir (Clean ("/data" ++ "/" ++ "p/q/r")))) := by decide
  have h := C10_unusable_source "/data" "/nosuch" "p/q/r" demoOS (by decide) (Or.inr hs)
  ⟨by decide, hs, h.1.1, h.1.2 ["data", "old.bin"],
    fun r1 hr => ⟨((h.2.2 (by decide)).2 r1 hr).1, ((h.2.2 (by decide)).2 r1 hr).2.1⟩⟩

end localfs
